import Mathlib

/-!
Verification of the Move-Indexed Board Synchronization Engine of the
famousgames3d repository (src/src/Chessboard.tsx).

The shallow embedding below mirrors the synchronizer code inside the
`Chessboard` component: the piece registry `piecesBySquare`, the captured
piece lists, `removePiece`, `setupBoardFromChess`, `applyMoveAnimated`,
the rebuild loop and the crown (end-of-game decoration) scheduling logic
of the reconciliation `createEffect` (lines 513-625 of Chessboard.tsx).

The external rules engine (chess.js) is not part of the repository; it is
modelled at its interface (spec section 6): a `RulesEngine` turns a SAN
move text into an optional `MoveEffect` (the fields of the chess.js move
object that the synchronizer reads: from, to, piece, color, captured,
flags e/k/q, promotion), and `applyEffect` gives the board-snapshot
update of an accepted move.  `MoveEffect.legalOn` collects the facts the
rules engine guarantees for any move it accepts.

Visual animation is modelled as a list of emitted commands (`Cmd`) with
their millisecond delays and durations; deferred registry operations
(the promotion swap, scheduled by `setTimeout`) are applied in the
settled state and their delay recorded on the command.
-/

/-- The six chess piece kinds (PIECE_TYPES in Chessboard.tsx). -/
inductive PieceType where
  | pawn | rook | knight | bishop | queen | king
deriving DecidableEq, Repr

/-- Board coordinate: (col, row) with col = file index a..h = 0..7 and
row 0 = rank 8, row 7 = rank 1 (see toSquareName/fromSquareName). -/
abbrev Coord := Fin 8 × Fin 8

/-- SAN-like move text as consumed by the rules engine. -/
abbrev MoveText := String

/-- A piece of the logical (rules-engine) board: kind and side. -/
structure LogicalPiece where
  type : PieceType
  isBlack : Bool
deriving DecidableEq, Repr

/-- A logical board snapshot, as reported by chess.board(). -/
abbrev LBoard := Coord → Option LogicalPiece

/-- A visual piece instance (PieceInfo in Chessboard.tsx); `id` stands for
the identity of the THREE.Group mesh, distinct from the board position. -/
structure PieceInfo where
  id : Nat
  type : PieceType
  isBlack : Bool
deriving DecidableEq, Repr

/-- The piece registry: the `piecesBySquare` map, coordinate to instance. -/
abbrev Registry := Coord → Option PieceInfo

/-- Point update of a coordinate-keyed store (Map.set). -/
def storeSet {α : Type} (r : Coord → Option α) (c : Coord) (p : α) :
    Coord → Option α :=
  fun c2 => if c2 = c then some p else r c2

/-- Point removal from a coordinate-keyed store (Map.delete). -/
def storeDel {α : Type} (r : Coord → Option α) (c : Coord) :
    Coord → Option α :=
  fun c2 => if c2 = c then none else r c2

/-- Forget piece identity: the coordinate-to-kind/side mapping of the
registry, used to compare the visual layout with the logical board. -/
def regProj (r : Registry) : LBoard :=
  fun c => (r c).map (fun p => ⟨p.type, p.isBlack⟩)

/-- Effect descriptor of one accepted move: exactly the fields of the
chess.js move object that applyMoveAnimated reads (from, to, piece,
color, captured, flags 'e'/'k'/'q', promotion). -/
structure MoveEffect where
  fromSq : Coord
  toSq : Coord
  piece : PieceType
  isBlack : Bool
  captured : Option PieceType
  isEnPassant : Bool
  castleKing : Bool
  castleQueen : Bool
  promotion : Option PieceType
deriving DecidableEq, Repr

/-- The square holding the captured piece: for en passant it is
(destination file, origin rank), i.e. `${toSquare[0]}${fromSquare[1]}`
at Chessboard.tsx line 399, otherwise the destination square. -/
def capSquare (e : MoveEffect) : Coord :=
  if e.isEnPassant then (e.toSq.1, e.fromSq.2) else e.toSq

/-- Home row of a side in (col,row) coordinates: row 7 = rank 1 for
white, row 0 = rank 8 for black (`move.color === 'w' ? 7 : 0`). -/
def homeRow (isBlack : Bool) : Fin 8 := if isBlack then 0 else 7

/-- The rook's pre-castle square: file 7 (kingside) or 0 (queenside) on
the home rank (Chessboard.tsx lines 417-420). -/
def rookFromSq (e : MoveEffect) : Coord :=
  (if e.castleKing then (7 : Fin 8) else 0, homeRow e.isBlack)

/-- The rook's post-castle square: file 5 (kingside) or 3 (queenside) on
the home rank. -/
def rookToSq (e : MoveEffect) : Coord :=
  (if e.castleKing then (5 : Fin 8) else 3, homeRow e.isBlack)

/-- Modelled from the spec: the board-snapshot semantics of the external
rules engine (chess.js), which is not part of this repository.  Spec
section 6: an accepted move empties the capture square, moves the piece
from origin to destination (with the promoted kind on promotion) and
relocates the rook on castling. -/
def applyEffect (b : LBoard) (e : MoveEffect) : LBoard :=
  let b1 := if e.captured.isSome then storeDel b (capSquare e) else b
  let b2 := storeSet (storeDel b1 e.fromSq) e.toSq
    ⟨e.promotion.getD e.piece, e.isBlack⟩
  if e.castleKing ∨ e.castleQueen then
    storeSet (storeDel b2 (rookFromSq e)) (rookToSq e) ⟨PieceType.rook, e.isBlack⟩
  else b2

/-- Modelled from the spec: facts the rules engine guarantees about any
move effect it accepts on a board (spec section 6: deterministic legality
engine).  These are standard chess facts: the mover stands on the origin
square; a capture square differs from the origin and carries an opposing
piece; en passant captures a pawn onto an empty square on another rank;
castling is a king move from the e-file with the rook on its home square
and is neither a capture nor a promotion. -/
def MoveEffect.legalOn (e : MoveEffect) (b : LBoard) : Prop :=
  b e.fromSq = some ⟨e.piece, e.isBlack⟩
  ∧ e.fromSq ≠ e.toSq
  ∧ (e.captured.isSome →
      b (capSquare e) = some ⟨e.captured.getD PieceType.pawn, !e.isBlack⟩
      ∧ capSquare e ≠ e.fromSq)
  ∧ (e.isEnPassant = true →
      e.captured = some PieceType.pawn ∧ e.fromSq.2 ≠ e.toSq.2 ∧ b e.toSq = none)
  ∧ ((e.castleKing = true ∨ e.castleQueen = true) →
      e.piece = PieceType.king ∧ e.captured = none ∧ e.promotion = none
      ∧ e.isEnPassant = false
      ∧ ¬(e.castleKing = true ∧ e.castleQueen = true)
      ∧ e.fromSq = ((4 : Fin 8), homeRow e.isBlack)
      ∧ e.toSq = ((if e.castleKing then (6 : Fin 8) else 2), homeRow e.isBlack)
      ∧ b (rookFromSq e) = some ⟨PieceType.rook, e.isBlack⟩)

instance (e : MoveEffect) (b : LBoard) : Decidable (e.legalOn b) := by
  unfold MoveEffect.legalOn
  exact inferInstance

/-- The external rules engine at its interface: a board position and a
move text yield the move's effect descriptor, or none when rejected. -/
abbrev RulesEngine := LBoard → MoveText → Option MoveEffect

/-- A rules engine is sound when every effect it reports is legal on the
board it was asked about. -/
def EngineSound (E : RulesEngine) : Prop :=
  ∀ b t e, E b t = some e → e.legalOn b

/-- One parsed move of the game record; `sanText` is
`move.notation.notation` of the pgn-parser move object. -/
structure TimelineMove where
  sanText : Option MoveText
deriving DecidableEq, Repr

/-- The `Result` tag of the parsed game. -/
inductive GameResult where
  | whiteWins | blackWins | draw | unknown
deriving DecidableEq, Repr

/-- The validated move list plus result tag of the active game. -/
structure Timeline where
  moves : List TimelineMove
  result : GameResult
deriving DecidableEq, Repr

/-- JS truthiness of `move?.notation?.notation`: absent or empty move
text is falsy and skipped. -/
def moveTextOf (m : TimelineMove) : Option MoveText :=
  match m.sanText with
  | none => none
  | some t => if t = "" then none else some t

/-- JS array indexing `moves[i]` with an Int index: out-of-range or
negative indices give undefined. -/
def jsGet {α : Type} (xs : List α) (i : Int) : Option α :=
  if i < 0 then none else xs[i.toNat]?

/-- A chair side that can receive a crown decoration. -/
inductive CrownSide where
  | white | black
deriving DecidableEq, Repr

/-- A pending end-of-game decoration timer (`crownTimeout`): the token
models the JS timeout handle, so cancellation is observable. -/
structure CrownReq where
  token : Nat
  delayMs : Nat
  result : GameResult
deriving DecidableEq, Repr

/-- An entry of a captured-pieces list, remembering the off-board slot
(row = captureIndex % 8, col = floor(captureIndex / 8), removePiece
lines 327-328). -/
structure CapturedEntry where
  info : PieceInfo
  row : Nat
  col : Nat
deriving DecidableEq, Repr

/-- ANIMATION_DURATION = 1.0 s, in milliseconds. -/
def animationDurationMs : Nat := 1000

/-- captureDelay = ANIMATION_DURATION * 0.6, in milliseconds. -/
def captureDelayMs : Nat := 600

/-- crownDelay = ANIMATION_DURATION * 2.0 * 1000 ms. -/
def crownDelayMs : Nat := 2000

/-- Animation / placement / logging commands emitted towards the scene
while reconciling, with their timing. -/
inductive Cmd where
  | animMove (pieceId : Nat) (fromSq toSq : Coord) (isKnight : Bool) (durationMs : Nat)
  | captureAnim (pieceId : Nat) (delayMs : Nat) (slotRow slotCol : Nat)
  | promoSwap (delayMs : Nat) (oldId newId : Nat) (sq : Coord) (promoted : PieceType)
  | scheduleCrown (delayMs : Nat) (result : GameResult)
  | logInvalid (t : MoveText)
deriving DecidableEq, Repr

/-- Piece animation commands (slides, hops, capture sequences, promotion
swaps), as opposed to decoration scheduling or fault logging. -/
def Cmd.isPieceAnim : Cmd → Bool
  | .animMove _ _ _ _ _ => true
  | .captureAnim _ _ _ _ => true
  | .promoSwap _ _ _ _ _ => true
  | _ => false

/-- Crown-decoration scheduling commands. -/
def Cmd.isCrownSchedule : Cmd → Bool
  | .scheduleCrown _ _ => true
  | _ => false

/-- The mutable state of the Chessboard component that the reconciliation
effect reads and writes: `piecesBySquare`, the captured piece lists,
`lastMoveIndex`, `currentChess` (as its logical board), the crown timer
and meshes.  `nextId` models mesh-identity freshness, `timerSeq` models
fresh JS timeout handles, `crownLoaded` models `crownModel !== null`. -/
structure SyncState where
  piecesBySquare : Registry
  capturedWhitePieces : List CapturedEntry
  capturedBlackPieces : List CapturedEntry
  lastMoveIndex : Int
  currentChess : Option LBoard
  nextId : Nat
  crownLoaded : Bool
  crownTimeout : Option CrownReq
  crownMeshes : List CrownSide
  timerSeq : Nat

/-- removePiece(square, animate = true, delay): push the instance on the
captured list of its side (captureIndex = current length, slot row =
captureIndex % 8, col = floor(captureIndex / 8)), delete its registry
key, and emit the three-phase capture animation (lines 313-359). -/
def removePieceAnimated (st : SyncState) (sq : Coord) (delayMs : Nat) :
    SyncState × List Cmd :=
  match st.piecesBySquare sq with
  | none => (st, [])
  | some info =>
    if info.isBlack then
      let idx := st.capturedBlackPieces.length
      ({ st with
          capturedBlackPieces :=
            st.capturedBlackPieces ++ [⟨info, idx % 8, idx / 8⟩],
          piecesBySquare := storeDel st.piecesBySquare sq },
       [Cmd.captureAnim info.id delayMs (idx % 8) (idx / 8)])
    else
      let idx := st.capturedWhitePieces.length
      ({ st with
          capturedWhitePieces :=
            st.capturedWhitePieces ++ [⟨info, idx % 8, idx / 8⟩],
          piecesBySquare := storeDel st.piecesBySquare sq },
       [Cmd.captureAnim info.id delayMs (idx % 8) (idx / 8)])

/-- Capture handling of applyMoveAnimated (lines 394-404): remove the
captured piece, animated, with delay ANIMATION_DURATION * 0.6; for en
passant the captured square is (destination file, origin rank). -/
def applyCapturePart (st : SyncState) (mv : MoveEffect) : SyncState × List Cmd :=
  if mv.captured.isSome then removePieceAnimated st (capSquare mv) captureDelayMs
  else (st, [])

/-- Mover relocation of applyMoveAnimated (lines 406-412): re-key the
instance from the origin to the destination and animate it (knights get
the arched transition). -/
def applyMoverPart (st : SyncState) (mv : MoveEffect) : SyncState × List Cmd :=
  match st.piecesBySquare mv.fromSq with
  | none => (st, [])
  | some pi =>
    ({ st with piecesBySquare :=
        (storeSet (storeDel st.piecesBySquare mv.fromSq) mv.toSq pi) },
     [Cmd.animMove pi.id mv.fromSq mv.toSq (mv.piece == PieceType.knight)
        animationDurationMs])

/-- Castling handling of applyMoveAnimated (lines 414-429): relocate the
rook from file 7 to 5 (kingside) or 0 to 3 (queenside) on the mover's
home rank, with a flat (non-knight) transition. -/
def applyCastlePart (st : SyncState) (mv : MoveEffect) : SyncState × List Cmd :=
  if mv.castleKing ∨ mv.castleQueen then
    match st.piecesBySquare (rookFromSq mv) with
    | none => (st, [])
    | some ri =>
      ({ st with piecesBySquare :=
          (storeSet (storeDel st.piecesBySquare (rookFromSq mv))
            (rookToSq mv) ri) },
       [Cmd.animMove ri.id (rookFromSq mv) (rookToSq mv)
          false animationDurationMs])
  else (st, [])

/-- Promotion handling of applyMoveAnimated (lines 431-463): after
ANIMATION_DURATION * 1000 ms, remove the instance at the destination
(non-animated) and create a fresh instance of the promoted kind there.
The settled registry effect is applied here; the setTimeout delay is
recorded on the emitted command. -/
def applyPromotionPart (st : SyncState) (mv : MoveEffect) : SyncState × List Cmd :=
  match mv.promotion with
  | none => (st, [])
  | some pk =>
    let oldId := ((st.piecesBySquare mv.toSq).map (fun p => p.id)).getD 0
    ({ st with
        piecesBySquare :=
          (storeSet (storeDel st.piecesBySquare mv.toSq) mv.toSq
            ⟨st.nextId, pk, mv.isBlack⟩),
        nextId := st.nextId + 1 },
     [Cmd.promoSwap animationDurationMs oldId st.nextId mv.toSq pk])

/-- The body of applyMoveAnimated after the rules engine accepted the
move (lines 388-465), in source order: capture, mover, castling,
promotion, then `currentChess = chess` (the position with the move
applied). -/
def applyEffectStep (st : SyncState) (mv : MoveEffect) (b : LBoard) :
    SyncState × List Cmd :=
  let s1 := applyCapturePart st mv
  let s2 := applyMoverPart s1.1 mv
  let s3 := applyCastlePart s2.1 mv
  let s4 := applyPromotionPart s3.1 mv
  ({ s4.1 with currentChess := some (applyEffect b mv) },
   s1.2 ++ s2.2 ++ s3.2 ++ s4.2)

/-- applyMoveAnimated (lines 383-466): ask the rules engine to apply the
move text on (a copy of) the current position; on rejection return with
no changes, otherwise perform the capture/move/castle/promotion updates. -/
def applyMoveAnimated (E : RulesEngine) (b : LBoard) (st : SyncState)
    (t : MoveText) : SyncState × List Cmd :=
  match E b t with
  | none => (st, [])
  | some mv => applyEffectStep st mv b

/-- Standard chess back rank by file. -/
def backRank (f : Fin 8) : PieceType :=
  if f = 0 ∨ f = 7 then .rook
  else if f = 1 ∨ f = 6 then .knight
  else if f = 2 ∨ f = 5 then .bishop
  else if f = 3 then .queen else .king

/-- The initial logical position (new Chess()): row 0 black back rank,
row 1 black pawns, row 6 white pawns, row 7 white back rank. -/
def initialBoard : LBoard := fun c =>
  if c.2 = 0 then some ⟨backRank c.1, true⟩
  else if c.2 = 1 then some ⟨.pawn, true⟩
  else if c.2 = 6 then some ⟨.pawn, false⟩
  else if c.2 = 7 then some ⟨backRank c.1, false⟩
  else none

/-- All 64 coordinates in the iteration order of setupBoardFromChess:
rank (row) outer, file (col) inner. -/
def allCoords : List Coord :=
  (List.finRange 8).flatMap (fun r => (List.finRange 8).map (fun f => (f, r)))

/-- One square of the setupBoardFromChess loop: create a fresh instance
for an occupied square. -/
def buildStep (b : LBoard) (acc : Registry × Nat) (c : Coord) : Registry × Nat :=
  match b c with
  | some lp => (storeSet acc.1 c ⟨acc.2, lp.type, lp.isBlack⟩, acc.2 + 1)
  | none => acc

/-- Instantiate fresh piece instances for every occupied square of a
logical board (the loop body of setupBoardFromChess, lines 364-378). -/
def buildRegistry (b : LBoard) (n0 : Nat) : Registry × Nat :=
  allCoords.foldl (buildStep b) ((fun _ => none), n0)

/-- setupBoardFromChess (lines 362-380): clearAllPieces (registry and
both captured lists emptied), pieces instantiated directly at rest from
the logical board, `currentChess = chess`. -/
def setupBoardFromChess (st : SyncState) (b : LBoard) : SyncState :=
  let built := buildRegistry b st.nextId
  { st with
      piecesBySquare := built.1,
      capturedWhitePieces := [],
      capturedBlackPieces := [],
      currentChess := some b,
      nextId := built.2 }

/-- The rebuild replay loop (lines 558-569): from the initial position,
apply each move in order; a move with falsy notation text is skipped; a
move the rules engine rejects logs the fault and breaks the loop. -/
def rebuildGo (E : RulesEngine) : LBoard → List TimelineMove → LBoard × List Cmd
  | b, [] => (b, [])
  | b, m :: ms =>
    match moveTextOf m with
    | none => rebuildGo E b ms
    | some t =>
      match E b t with
      | none => (b, [Cmd.logInvalid t])
      | some e => rebuildGo E (applyEffect b e) ms

/-- The full-rebuild branch (lines 556-570): replay moves 0 through
requestedIndex (the loop runs while i <= moveIndex && i < moves.length),
then rebuildBoard = setupBoardFromChess on the resulting position. -/
def rebuildPath (E : RulesEngine) (tl : Timeline) (st : SyncState)
    (moveIndex : Int) : SyncState × List Cmd :=
  let r := rebuildGo E initialBoard (tl.moves.take (moveIndex + 1).toNat)
  (setupBoardFromChess st r.1, r.2)

/-- Crown scheduling (lines 573-622): when the crown model is loaded and
the requested index is the final move index, schedule one decoration
request after ANIMATION_DURATION * 2.0 * 1000 ms, keyed by a fresh
timeout handle. -/
def scheduleCrownIfFinal (tl : Timeline) (st : SyncState) (moveIndex : Int) :
    SyncState × List Cmd :=
  if st.crownLoaded = true ∧ moveIndex = (tl.moves.length : Int) - 1 then
    ({ st with
        crownTimeout := some ⟨st.timerSeq, crownDelayMs, tl.result⟩,
        timerSeq := st.timerSeq + 1 },
     [Cmd.scheduleCrown crownDelayMs tl.result])
  else (st, [])

/-- Crown cancellation at the top of every reconciliation run: clear
any pending crown timeout and remove placed crown meshes (lines 520-526). -/
def cancelCrown (st : SyncState) : SyncState :=
  { st with crownTimeout := none, crownMeshes := ([] : List CrownSide) }

/-- Tail of the reconciliation effect common to both branches: crown
scheduling at the final index (lines 573-622), then
`lastMoveIndex = moveIndex` (line 624). -/
def finishReconcile (tl : Timeline) (r : SyncState × List Cmd)
    (moveIndex : Int) : SyncState × List Cmd :=
  let crowned := scheduleCrownIfFinal tl r.1 moveIndex
  ({ crowned.1 with lastMoveIndex := moveIndex }, r.2 ++ crowned.2)

/-- The reconciliation effect (createEffect, lines 513-625), for a
loaded piece-model set and a present game: cancel any pending crown
timer and remove placed crowns (lines 520-526); return if the requested
index equals `lastMoveIndex` (line 545); single forward step when
moveIndex > lastMoveIndex && moveIndex - lastMoveIndex === 1 and the
move text and `currentChess` are available (lines 549-555), otherwise
full rebuild (lines 556-571); schedule the crown at the final index
(lines 573-622); finally `lastMoveIndex = moveIndex` (line 624). -/
def reconcile (E : RulesEngine) (tl : Timeline) (st0 : SyncState)
    (moveIndex : Int) : SyncState × List Cmd :=
  let st := cancelCrown st0
  if moveIndex = st.lastMoveIndex then (st, [])
  else
    finishReconcile tl
      (if moveIndex > st.lastMoveIndex ∧ moveIndex - st.lastMoveIndex = 1 then
        match jsGet tl.moves moveIndex with
        | none => (st, ([] : List Cmd))
        | some m =>
          match moveTextOf m, st.currentChess with
          | some t, some b => applyMoveAnimated E b st t
          | _, _ => (st, [])
      else
        rebuildPath E tl st moveIndex)
      moveIndex

/-- Firing of the crown timeout (lines 609-621): place the crown(s)
according to the result tag (winner's chair, or both chairs split on a
draw, nothing on an unknown result) and clear the handle.  It touches
only the crown meshes, never the piece registry. -/
def crownsFor : GameResult → List CrownSide
  | .whiteWins => [.white]
  | .blackWins => [.black]
  | .draw => [.white, .black]
  | .unknown => []

/-- Fire a pending decoration timer, if any. -/
def fireCrown (st : SyncState) : SyncState :=
  match st.crownTimeout with
  | none => st
  | some c =>
    { st with
        crownTimeout := none,
        crownMeshes := st.crownMeshes ++ crownsFor c.result }

/-- Replay a move list from a board, reporting the final board and the
effect of every move; none as soon as a move text is falsy or rejected.
Used to state that the rules engine accepts a whole timeline. -/
def replayData (E : RulesEngine) (b : LBoard) :
    List TimelineMove → Option (LBoard × List MoveEffect)
  | [] => some (b, [])
  | m :: ms =>
    match moveTextOf m with
    | none => none
    | some t =>
      match E b t with
      | none => none
      | some e =>
        (replayData E (applyEffect b e) ms).map (fun r => (r.1, e :: r.2))

/-- The rules engine accepts every move of the timeline, played from the
initial position. -/
def AcceptsAll (E : RulesEngine) (tl : Timeline) : Prop :=
  (replayData E initialBoard tl.moves).isSome = true

/-- The state right after loadPieces finished (lines 503-510): board set
up from the initial position, `lastMoveIndex = -1`. -/
def freshState : SyncState :=
  let built := buildRegistry initialBoard 0
  { piecesBySquare := built.1
    capturedWhitePieces := []
    capturedBlackPieces := []
    lastMoveIndex := -1
    currentChess := some initialBoard
    nextId := built.2
    crownLoaded := true
    crownTimeout := none
    crownMeshes := []
    timerSeq := 0 }

/-- The state at component mount, before loadPieces ran (lines 178-179):
empty registry, `lastMoveIndex = -2`, `currentChess = null`. -/
def startupState : SyncState :=
  { piecesBySquare := fun _ => none
    capturedWhitePieces := []
    capturedBlackPieces := []
    lastMoveIndex := -2
    currentChess := none
    nextId := 0
    crownLoaded := false
    crownTimeout := none
    crownMeshes := []
    timerSeq := 0 }

/-- The chain of consecutive single-step reconcile calls: from the fresh
state, reconcile(0), reconcile(1), ..., reconcile(i). -/
def stepSeq (E : RulesEngine) (tl : Timeline) : Nat → SyncState
  | 0 => (reconcile E tl freshState 0).1
  | i + 1 => (reconcile E tl (stepSeq E tl i) ((i + 1 : Nat) : Int)).1

/-- A tiny concrete rules engine used as a witness instance of the
engine interface: it knows a few fixed move texts and checks their
effects for legality before accepting. -/
def toyParse : MoveText → Option MoveEffect
  | "e4" => some
      { fromSq := (4, 6), toSq := (4, 4), piece := .pawn, isBlack := false,
        captured := none, isEnPassant := false, castleKing := false,
        castleQueen := false, promotion := none }
  | "e5" => some
      { fromSq := (4, 1), toSq := (4, 3), piece := .pawn, isBlack := true,
        captured := none, isEnPassant := false, castleKing := false,
        castleQueen := false, promotion := none }
  | "d5" => some
      { fromSq := (3, 1), toSq := (3, 3), piece := .pawn, isBlack := true,
        captured := none, isEnPassant := false, castleKing := false,
        castleQueen := false, promotion := none }
  | "exd5" => some
      { fromSq := (4, 4), toSq := (3, 3), piece := .pawn, isBlack := false,
        captured := some .pawn, isEnPassant := false, castleKing := false,
        castleQueen := false, promotion := none }
  | _ => none

/-- The witness rules engine: parse then check legality. -/
def toyEngine : RulesEngine := fun b t =>
  match toyParse t with
  | none => none
  | some e => if e.legalOn b then some e else none

/-- The move's effect captures a black piece (a capture by a white
mover: the captured piece's side is the opposite of the mover's). -/
def capturesBlackPiece (e : MoveEffect) : Bool :=
  e.captured.isSome && !e.isBlack

/-- The move's effect captures a white piece (a capture by a black
mover). -/
def capturesWhitePiece (e : MoveEffect) : Bool :=
  e.captured.isSome && e.isBlack

/-- Every entry of a captured-pieces list rests in the slot computed
round-robin from its position in the sequence: row = index % 8,
column = floor(index / 8) (removePiece lines 320-328). -/
def slotsOk (l : List CapturedEntry) : Prop :=
  ∀ j (h : j < l.length),
    (l.get ⟨j, h⟩).row = j % 8 ∧ (l.get ⟨j, h⟩).col = j / 8

/-- The effect the witness engine reports for the move text e4 on the
initial position. -/
def e4Effect : MoveEffect :=
  { fromSq := (4, 6), toSq := (4, 4), piece := .pawn, isBlack := false,
    captured := none, isEnPassant := false, castleKing := false,
    castleQueen := false, promotion := none }

/-! ### Store and projection lemmas -/

theorem storeSet_apply {α : Type} (r : Coord → Option α) (c c2 : Coord) (p : α) :
    storeSet r c p c2 = if c2 = c then some p else r c2 := rfl

theorem storeDel_apply {α : Type} (r : Coord → Option α) (c c2 : Coord) :
    storeDel r c c2 = if c2 = c then none else r c2 := rfl

theorem regProj_storeSet (r : Registry) (c c2 : Coord) (p : PieceInfo) :
    regProj (storeSet r c p) c2 =
      if c2 = c then some (⟨p.type, p.isBlack⟩ : LogicalPiece) else regProj r c2 := by
  by_cases h : c2 = c <;> simp [regProj, storeSet, h]

theorem regProj_storeDel (r : Registry) (c c2 : Coord) :
    regProj (storeDel r c) c2 = if c2 = c then none else regProj r c2 := by
  by_cases h : c2 = c <;> simp [regProj, storeDel, h]

theorem mem_allCoords (c : Coord) : c ∈ allCoords := by
  rcases c with ⟨f, r⟩
  refine List.mem_flatMap.mpr ⟨r, List.mem_finRange r, ?_⟩
  exact List.mem_map.mpr ⟨f, List.mem_finRange f, rfl⟩

theorem buildRegistry_go_proj (b : LBoard) (L : List Coord) :
    ∀ (init : Registry × Nat) (c : Coord),
      regProj (L.foldl (buildStep b) init).1 c
        = if c ∈ L ∧ (b c).isSome then b c else regProj init.1 c := by
  induction L with
  | nil => intro init c; simp
  | cons hd tlr ih =>
    intro init c
    rw [List.foldl_cons, ih]
    by_cases hmem : c ∈ tlr ∧ (b c).isSome
    · simp [hmem, hmem.1]
    · cases hbhd : b hd with
      | none =>
        simp only [buildStep, hbhd]
        by_cases hc : c = hd
        · subst hc; simp [hbhd, hmem]
        · simp [hc, hmem]
      | some lp =>
        simp only [buildStep, hbhd]
        by_cases hc : c = hd
        · subst hc; simp [hbhd, regProj_storeSet, hmem]
        · simp [hc, hmem, regProj_storeSet]

theorem buildRegistry_proj (b : LBoard) (n0 : Nat) (c : Coord) :
    regProj (buildRegistry b n0).1 c = b c := by
  unfold buildRegistry
  rw [buildRegistry_go_proj]
  simp only [mem_allCoords c, true_and]
  cases hb : b c <;> simp [hb, regProj]

theorem setupBoardFromChess_proj (st : SyncState) (b : LBoard) (c : Coord) :
    regProj (setupBoardFromChess st b).piecesBySquare c = b c :=
  buildRegistry_proj b st.nextId c

/-! ### applyMoveAnimated stage lemmas -/

theorem applyCapturePart_reg (st : SyncState) (mv : MoveEffect) (c : Coord) :
    (applyCapturePart st mv).1.piecesBySquare c
      = if mv.captured.isSome = true ∧ c = capSquare mv then none
        else st.piecesBySquare c := by
  unfold applyCapturePart removePieceAnimated
  by_cases hc : mv.captured.isSome = true
  · simp only [hc, if_true, true_and]
    cases hsq : st.piecesBySquare (capSquare mv) with
    | none =>
      by_cases h2 : c = capSquare mv
      · subst h2; simp [hsq]
      · simp [h2]
    | some info =>
      cases hb : info.isBlack <;> simp [hb, storeDel_apply]
  · simp [hc]

theorem applyCapturePart_fields (st : SyncState) (mv : MoveEffect) :
    (applyCapturePart st mv).1.currentChess = st.currentChess
    ∧ (applyCapturePart st mv).1.lastMoveIndex = st.lastMoveIndex
    ∧ (applyCapturePart st mv).1.nextId = st.nextId
    ∧ (applyCapturePart st mv).1.crownLoaded = st.crownLoaded
    ∧ (applyCapturePart st mv).1.crownTimeout = st.crownTimeout
    ∧ (applyCapturePart st mv).1.crownLoaded = st.crownLoaded
    ∧ (applyCapturePart st mv).1.crownMeshes = st.crownMeshes
    ∧ (applyCapturePart st mv).1.timerSeq = st.timerSeq := by
  unfold applyCapturePart removePieceAnimated
  by_cases hc : mv.captured.isSome = true
  · simp only [hc, if_true]
    cases hsq : st.piecesBySquare (capSquare mv) with
    | none => simp
    | some info => cases hb : info.isBlack <;> simp [hb]
  · simp [hc]

theorem applyCapturePart_of_not (st : SyncState) (mv : MoveEffect)
    (hc : mv.captured.isSome = false) : applyCapturePart st mv = (st, []) := by
  simp [applyCapturePart, hc]

theorem applyCapturePart_of_empty (st : SyncState) (mv : MoveEffect)
    (hsq : st.piecesBySquare (capSquare mv) = none) :
    applyCapturePart st mv = (st, []) := by
  unfold applyCapturePart removePieceAnimated
  by_cases hc : mv.captured.isSome = true <;> simp [hc, hsq]

theorem applyCapturePart_of_black (st : SyncState) (mv : MoveEffect)
    (ci : PieceInfo) (hc : mv.captured.isSome = true)
    (hsq : st.piecesBySquare (capSquare mv) = some ci) (hb : ci.isBlack = true) :
    applyCapturePart st mv =
      ({ st with
          capturedBlackPieces := st.capturedBlackPieces ++
            [⟨ci, st.capturedBlackPieces.length % 8, st.capturedBlackPieces.length / 8⟩],
          piecesBySquare := storeDel st.piecesBySquare (capSquare mv) },
       [Cmd.captureAnim ci.id captureDelayMs
          (st.capturedBlackPieces.length % 8) (st.capturedBlackPieces.length / 8)]) := by
  simp [applyCapturePart, removePieceAnimated, hc, hsq, hb]

theorem applyCapturePart_of_white (st : SyncState) (mv : MoveEffect)
    (ci : PieceInfo) (hc : mv.captured.isSome = true)
    (hsq : st.piecesBySquare (capSquare mv) = some ci) (hb : ci.isBlack = false) :
    applyCapturePart st mv =
      ({ st with
          capturedWhitePieces := st.capturedWhitePieces ++
            [⟨ci, st.capturedWhitePieces.length % 8, st.capturedWhitePieces.length / 8⟩],
          piecesBySquare := storeDel st.piecesBySquare (capSquare mv) },
       [Cmd.captureAnim ci.id captureDelayMs
          (st.capturedWhitePieces.length % 8) (st.capturedWhitePieces.length / 8)]) := by
  simp [applyCapturePart, removePieceAnimated, hc, hsq, hb]

theorem applyMoverPart_of_some (st : SyncState) (mv : MoveEffect)
    (pi : PieceInfo) (hpi : st.piecesBySquare mv.fromSq = some pi) :
    applyMoverPart st mv =
      ({ st with piecesBySquare :=
          (storeSet (storeDel st.piecesBySquare mv.fromSq) mv.toSq pi) },
       [Cmd.animMove pi.id mv.fromSq mv.toSq (mv.piece == PieceType.knight)
          animationDurationMs]) := by
  simp [applyMoverPart, hpi]

theorem applyMoverPart_fields (st : SyncState) (mv : MoveEffect) :
    (applyMoverPart st mv).1.capturedWhitePieces = st.capturedWhitePieces
    ∧ (applyMoverPart st mv).1.capturedBlackPieces = st.capturedBlackPieces
    ∧ (applyMoverPart st mv).1.currentChess = st.currentChess
    ∧ (applyMoverPart st mv).1.lastMoveIndex = st.lastMoveIndex
    ∧ (applyMoverPart st mv).1.nextId = st.nextId
    ∧ (applyMoverPart st mv).1.crownTimeout = st.crownTimeout
    ∧ (applyMoverPart st mv).1.crownLoaded = st.crownLoaded
    ∧ (applyMoverPart st mv).1.crownMeshes = st.crownMeshes
    ∧ (applyMoverPart st mv).1.timerSeq = st.timerSeq := by
  unfold applyMoverPart
  cases st.piecesBySquare mv.fromSq <;> simp

theorem applyCastlePart_of_not (st : SyncState) (mv : MoveEffect)
    (h : ¬(mv.castleKing = true ∨ mv.castleQueen = true)) :
    applyCastlePart st mv = (st, []) := by
  simp [applyCastlePart, h]

theorem applyCastlePart_of_some (st : SyncState) (mv : MoveEffect)
    (ri : PieceInfo) (hcs : mv.castleKing = true ∨ mv.castleQueen = true)
    (hri : st.piecesBySquare (rookFromSq mv) = some ri) :
    applyCastlePart st mv =
      ({ st with piecesBySquare :=
          (storeSet (storeDel st.piecesBySquare (rookFromSq mv))
            (rookToSq mv) ri) },
       [Cmd.animMove ri.id (rookFromSq mv) (rookToSq mv) false
          animationDurationMs]) := by
  simp [applyCastlePart, hcs, hri]

theorem applyCastlePart_fields (st : SyncState) (mv : MoveEffect) :
    (applyCastlePart st mv).1.capturedWhitePieces = st.capturedWhitePieces
    ∧ (applyCastlePart st mv).1.capturedBlackPieces = st.capturedBlackPieces
    ∧ (applyCastlePart st mv).1.currentChess = st.currentChess
    ∧ (applyCastlePart st mv).1.lastMoveIndex = st.lastMoveIndex
    ∧ (applyCastlePart st mv).1.nextId = st.nextId
    ∧ (applyCastlePart st mv).1.crownTimeout = st.crownTimeout
    ∧ (applyCastlePart st mv).1.crownLoaded = st.crownLoaded
    ∧ (applyCastlePart st mv).1.crownMeshes = st.crownMeshes
    ∧ (applyCastlePart st mv).1.timerSeq = st.timerSeq := by
  unfold applyCastlePart
  by_cases h : mv.castleKing = true ∨ mv.castleQueen = true
  · simp only [h, if_true]
    cases st.piecesBySquare (rookFromSq mv) <;> simp
  · simp [h]

theorem applyPromotionPart_of_none (st : SyncState) (mv : MoveEffect)
    (h : mv.promotion = none) : applyPromotionPart st mv = (st, []) := by
  simp [applyPromotionPart, h]

theorem applyPromotionPart_of_some (st : SyncState) (mv : MoveEffect)
    (pk : PieceType) (h : mv.promotion = some pk) :
    applyPromotionPart st mv =
      ({ st with
          piecesBySquare :=
            (storeSet (storeDel st.piecesBySquare mv.toSq) mv.toSq
              ⟨st.nextId, pk, mv.isBlack⟩),
          nextId := st.nextId + 1 },
       [Cmd.promoSwap animationDurationMs
          (((st.piecesBySquare mv.toSq).map (fun p => p.id)).getD 0)
          st.nextId mv.toSq pk]) := by
  simp [applyPromotionPart, h]

theorem applyPromotionPart_fields (st : SyncState) (mv : MoveEffect) :
    (applyPromotionPart st mv).1.capturedWhitePieces = st.capturedWhitePieces
    ∧ (applyPromotionPart st mv).1.capturedBlackPieces = st.capturedBlackPieces
    ∧ (applyPromotionPart st mv).1.currentChess = st.currentChess
    ∧ (applyPromotionPart st mv).1.lastMoveIndex = st.lastMoveIndex
    ∧ (applyPromotionPart st mv).1.crownTimeout = st.crownTimeout
    ∧ (applyPromotionPart st mv).1.crownLoaded = st.crownLoaded
    ∧ (applyPromotionPart st mv).1.crownMeshes = st.crownMeshes
    ∧ (applyPromotionPart st mv).1.timerSeq = st.timerSeq := by
  unfold applyPromotionPart
  cases mv.promotion <;> simp

theorem applyEffectStep_currentChess (st : SyncState) (mv : MoveEffect)
    (b : LBoard) :
    (applyEffectStep st mv b).1.currentChess = some (applyEffect b mv) := rfl

theorem applyEffectStep_reg (st : SyncState) (mv : MoveEffect) (b : LBoard) :
    (applyEffectStep st mv b).1.piecesBySquare =
      (applyPromotionPart
        (applyCastlePart
          (applyMoverPart (applyCapturePart st mv).1 mv).1 mv).1 mv).1.piecesBySquare := rfl

/-! ### The incremental step commutes with the logical board update -/

theorem exists_instance_of_proj (st : SyncState) (b : LBoard) (c : Coord)
    (lp : LogicalPiece) (hproj : regProj st.piecesBySquare c = b c)
    (hb : b c = some lp) :
    ∃ pi, st.piecesBySquare c = some pi
      ∧ pi.type = lp.type ∧ pi.isBlack = lp.isBlack := by
  rw [hb] at hproj
  cases hq : st.piecesBySquare c with
  | none => rw [regProj, hq] at hproj; simp at hproj
  | some pi =>
    refine ⟨pi, rfl, ?_, ?_⟩ <;>
      (rw [regProj, hq] at hproj; simp at hproj;
       simp [← hproj])

theorem regProj_capturePart (st : SyncState) (mv : MoveEffect) (c : Coord) :
    regProj (applyCapturePart st mv).1.piecesBySquare c
      = if mv.captured.isSome = true ∧ c = capSquare mv then none
        else regProj st.piecesBySquare c := by
  rw [regProj, applyCapturePart_reg st mv c]
  by_cases h : mv.captured.isSome = true ∧ c = capSquare mv <;> simp [h, regProj]

theorem regProj_moverPart (st : SyncState) (b : LBoard) (mv : MoveEffect)
    (pi : PieceInfo)
    (hpi : st.piecesBySquare mv.fromSq = some pi)
    (hpit : pi.type = mv.piece) (hpib : pi.isBlack = mv.isBlack)
    (hproj : ∀ c, regProj st.piecesBySquare c = b c) (c : Coord) :
    regProj (applyMoverPart st mv).1.piecesBySquare c
      = storeSet (storeDel b mv.fromSq) mv.toSq ⟨mv.piece, mv.isBlack⟩ c := by
  rw [applyMoverPart_of_some st mv pi hpi]
  by_cases hcto : c = mv.toSq
  · simp [regProj_storeSet, hcto, hpit, hpib, storeSet_apply]
  · rw [regProj_storeSet, if_neg hcto, storeSet_apply, if_neg hcto,
      regProj_storeDel, storeDel_apply]
    by_cases hcf : c = mv.fromSq
    · simp [hcf]
    · simp [hcf, hproj c]

theorem proj_applyEffectStep (st : SyncState) (b : LBoard) (mv : MoveEffect)
    (hleg : mv.legalOn b) (hproj : ∀ c, regProj st.piecesBySquare c = b c) :
    ∀ c, regProj (applyEffectStep st mv b).1.piecesBySquare c
      = applyEffect b mv c := by
  obtain ⟨h1, h2, hcap, hep, hcas⟩ := hleg
  obtain ⟨pi, hpi, hpit, hpib⟩ :=
    exists_instance_of_proj st b mv.fromSq _ (hproj _) h1
  have hfrom1 : (applyCapturePart st mv).1.piecesBySquare mv.fromSq = some pi := by
    rw [applyCapturePart_reg]
    split_ifs with h
    · exact absurd h.2.symm (hcap h.1).2
    · exact hpi
  have hs1proj : ∀ c, regProj (applyCapturePart st mv).1.piecesBySquare c
      = (if mv.captured.isSome = true then storeDel b (capSquare mv) else b) c := by
    intro c
    rw [regProj_capturePart]
    by_cases hcc : mv.captured.isSome = true
    · by_cases hcs : c = capSquare mv <;> simp [hcc, hcs, storeDel_apply, hproj c]
    · simp [hcc, hproj c]
  have hs2proj : ∀ c,
      regProj (applyMoverPart (applyCapturePart st mv).1 mv).1.piecesBySquare c
      = storeSet
          (storeDel
            (if mv.captured.isSome = true then storeDel b (capSquare mv) else b)
            mv.fromSq)
          mv.toSq ⟨mv.piece, mv.isBlack⟩ c :=
    regProj_moverPart _ _ mv pi hfrom1 hpit hpib hs1proj
  intro c
  rw [applyEffectStep_reg]
  by_cases hc : mv.castleKing = true ∨ mv.castleQueen = true
  · obtain ⟨hking, hcapn, hpromn, hepn, hnotboth, hfromEq, htoEq, hrook⟩ := hcas hc
    obtain ⟨ri, hriSt, hrit, hrib⟩ :=
      exists_instance_of_proj st b (rookFromSq mv) _ (hproj _) hrook
    have h74 : (if mv.castleKing = true then (7 : Fin 8) else 0) ≠ 4 := by
      cases hck : mv.castleKing <;> simp [hck]
    have h76 : (if mv.castleKing = true then (7 : Fin 8) else 0)
        ≠ (if mv.castleKing = true then (6 : Fin 8) else 2) := by
      cases hck : mv.castleKing <;> simp [hck]
    have hrf_ne_from : rookFromSq mv ≠ mv.fromSq := by
      intro hq
      rw [rookFromSq, hfromEq] at hq
      exact h74 (congrArg Prod.fst hq)
    have hrf_ne_to : rookFromSq mv ≠ mv.toSq := by
      intro hq
      rw [rookFromSq, htoEq] at hq
      exact h76 (congrArg Prod.fst hq)
    have hri2 : (applyMoverPart (applyCapturePart st mv).1 mv).1.piecesBySquare
        (rookFromSq mv) = some ri := by
      rw [applyMoverPart_of_some _ mv pi hfrom1]
      show storeSet (storeDel (applyCapturePart st mv).1.piecesBySquare mv.fromSq)
        mv.toSq pi (rookFromSq mv) = some ri
      rw [storeSet_apply, if_neg hrf_ne_to, storeDel_apply, if_neg hrf_ne_from,
        applyCapturePart_reg]
      simp [hcapn, hriSt]
    rw [applyCastlePart_of_some _ mv ri hc hri2, applyPromotionPart_of_none _ mv hpromn]
    show regProj
      (storeSet
        (storeDel (applyMoverPart (applyCapturePart st mv).1 mv).1.piecesBySquare
          (rookFromSq mv))
        (rookToSq mv) ri) c = applyEffect b mv c
    simp only [applyEffect]
    rw [if_pos hc]
    by_cases hcrt : c = rookToSq mv
    · rw [regProj_storeSet, if_pos hcrt, storeSet_apply, if_pos hcrt, hrit, hrib]
    · rw [regProj_storeSet, if_neg hcrt, storeSet_apply, if_neg hcrt,
        regProj_storeDel, storeDel_apply]
      by_cases hcrf : c = rookFromSq mv
      · rw [if_pos hcrf, if_pos hcrf]
      · rw [if_neg hcrf, if_neg hcrf, hs2proj c]
        simp [hcapn, hpromn]
  · rw [applyCastlePart_of_not _ mv hc]
    cases hp : mv.promotion with
    | none =>
      rw [applyPromotionPart_of_none _ mv hp, hs2proj c]
      simp only [applyEffect, hp]
      rw [if_neg hc]
      simp
    | some pk =>
      rw [applyPromotionPart_of_some _ mv pk hp]
      show regProj
        (storeSet
          (storeDel (applyMoverPart (applyCapturePart st mv).1 mv).1.piecesBySquare
            mv.toSq)
          mv.toSq ⟨(applyMoverPart (applyCapturePart st mv).1 mv).1.nextId, pk,
            mv.isBlack⟩) c = applyEffect b mv c
      simp only [applyEffect, hp]
      rw [if_neg hc]
      by_cases hcto : c = mv.toSq
      · rw [regProj_storeSet, if_pos hcto, storeSet_apply, if_pos hcto]
        rfl
      · rw [regProj_storeSet, if_neg hcto, regProj_storeDel, if_neg hcto,
          hs2proj c, storeSet_apply, if_neg hcto, storeSet_apply, if_neg hcto]

/-! ### Replay equation lemmas -/

theorem replayData_nil (E : RulesEngine) (b : LBoard) :
    replayData E b [] = some (b, []) := rfl

theorem replayData_cons_skip (E : RulesEngine) (b : LBoard)
    (m : TimelineMove) (ms : List TimelineMove)
    (h : moveTextOf m = none) : replayData E b (m :: ms) = none := by
  simp only [replayData, h]

theorem replayData_cons_rej (E : RulesEngine) (b : LBoard)
    (m : TimelineMove) (ms : List TimelineMove) (t : MoveText)
    (h : moveTextOf m = some t) (hE : E b t = none) :
    replayData E b (m :: ms) = none := by
  simp only [replayData, h, hE]

theorem replayData_cons_ok (E : RulesEngine) (b : LBoard)
    (m : TimelineMove) (ms : List TimelineMove) (t : MoveText) (e : MoveEffect)
    (h : moveTextOf m = some t) (hE : E b t = some e) :
    replayData E b (m :: ms)
      = (replayData E (applyEffect b e) ms).map (fun r => (r.1, e :: r.2)) := by
  simp only [replayData, h, hE]

theorem rebuildGo_nil (E : RulesEngine) (b : LBoard) :
    rebuildGo E b [] = (b, []) := rfl

theorem rebuildGo_cons_skip (E : RulesEngine) (b : LBoard)
    (m : TimelineMove) (ms : List TimelineMove)
    (h : moveTextOf m = none) : rebuildGo E b (m :: ms) = rebuildGo E b ms := by
  simp only [rebuildGo, h]

theorem rebuildGo_cons_rej (E : RulesEngine) (b : LBoard)
    (m : TimelineMove) (ms : List TimelineMove) (t : MoveText)
    (h : moveTextOf m = some t) (hE : E b t = none) :
    rebuildGo E b (m :: ms) = (b, [Cmd.logInvalid t]) := by
  simp only [rebuildGo, h, hE]

theorem rebuildGo_cons_ok (E : RulesEngine) (b : LBoard)
    (m : TimelineMove) (ms : List TimelineMove) (t : MoveText) (e : MoveEffect)
    (h : moveTextOf m = some t) (hE : E b t = some e) :
    rebuildGo E b (m :: ms) = rebuildGo E (applyEffect b e) ms := by
  simp only [rebuildGo, h, hE]

/-! ### Replay composition lemmas -/

theorem replayData_append_none (E : RulesEngine) (xs ys : List TimelineMove) :
    ∀ b, replayData E b xs = none → replayData E b (xs ++ ys) = none := by
  induction xs with
  | nil => intro b h; rw [replayData_nil] at h; exact absurd h (by simp)
  | cons m ms ih =>
    intro b h
    rw [List.cons_append]
    cases hmt : moveTextOf m with
    | none => exact replayData_cons_skip E b m _ hmt
    | some t =>
      cases hE : E b t with
      | none => exact replayData_cons_rej E b m _ t hmt hE
      | some e =>
        rw [replayData_cons_ok E b m _ t e hmt hE] at h ⊢
        rw [Option.map_eq_none'] at h
        rw [ih _ h]
        rfl

theorem replayData_append_some (E : RulesEngine) (xs ys : List TimelineMove) :
    ∀ b b1 es, replayData E b xs = some (b1, es) →
      replayData E b (xs ++ ys)
        = (replayData E b1 ys).map (fun r => (r.1, es ++ r.2)) := by
  induction xs with
  | nil =>
    intro b b1 es h
    rw [replayData_nil] at h
    simp only [Option.some_inj, Prod.mk.injEq] at h
    obtain ⟨hb, hes⟩ := h
    subst hb; subst hes
    rw [List.nil_append]
    cases replayData E b ys <;> simp
  | cons m ms ih =>
    intro b b1 es h
    rw [List.cons_append]
    cases hmt : moveTextOf m with
    | none => rw [replayData_cons_skip E b m _ hmt] at h; exact absurd h (by simp)
    | some t =>
      cases hE : E b t with
      | none =>
        rw [replayData_cons_rej E b m _ t hmt hE] at h
        exact absurd h (by simp)
      | some e =>
        rw [replayData_cons_ok E b m _ t e hmt hE] at h
        rw [replayData_cons_ok E b m _ t e hmt hE]
        cases hrec : replayData E (applyEffect b e) ms with
        | none => rw [hrec] at h; simp at h
        | some r =>
          rw [hrec] at h
          obtain ⟨rb, res⟩ := r
          simp only [Option.map_some', Option.some_inj, Prod.mk.injEq] at h
          obtain ⟨hb1, hes⟩ := h
          subst hb1
          subst hes
          rw [ih _ _ _ hrec]
          cases replayData E rb ys <;> simp

theorem replayData_take_isSome (E : RulesEngine) (ms : List TimelineMove)
    (b : LBoard) (h : (replayData E b ms).isSome = true) (n : Nat) :
    (replayData E b (ms.take n)).isSome = true := by
  by_contra hcon
  have hnone : replayData E b (ms.take n) = none := by
    cases hq : replayData E b (ms.take n)
    · rfl
    · rw [hq] at hcon; simp at hcon
  have hw := replayData_append_none E (ms.take n) (ms.drop n) b hnone
  rw [List.take_append_drop] at hw
  rw [hw] at h
  simp at h

theorem replayData_snoc (E : RulesEngine) (xs : List TimelineMove)
    (m : TimelineMove) (b0 b1 : LBoard) (es : List MoveEffect)
    (hxs : replayData E b0 xs = some (b1, es)) (b2 : LBoard)
    (es2 : List MoveEffect)
    (hall : replayData E b0 (xs ++ [m]) = some (b2, es2)) :
    ∃ t e, moveTextOf m = some t ∧ E b1 t = some e
      ∧ b2 = applyEffect b1 e ∧ es2 = es ++ [e] := by
  rw [replayData_append_some E xs [m] b0 b1 es hxs] at hall
  cases hmt : moveTextOf m with
  | none =>
    rw [replayData_cons_skip E b1 m [] hmt] at hall
    simp at hall
  | some t =>
    cases hE : E b1 t with
    | none =>
      rw [replayData_cons_rej E b1 m [] t hmt hE] at hall
      simp at hall
    | some e =>
      rw [replayData_cons_ok E b1 m [] t e hmt hE, replayData_nil] at hall
      simp only [Option.map_some', Option.some_inj, Prod.mk.injEq] at hall
      exact ⟨t, e, rfl, hE, hall.1.symm, hall.2.symm⟩

theorem rebuildGo_of_replay (E : RulesEngine) :
    ∀ (ms : List TimelineMove) (b b1 : LBoard) (es : List MoveEffect),
      replayData E b ms = some (b1, es) → rebuildGo E b ms = (b1, []) := by
  intro ms
  induction ms with
  | nil =>
    intro b b1 es h
    rw [replayData_nil] at h
    simp only [Option.some_inj, Prod.mk.injEq] at h
    rw [rebuildGo_nil, h.1]
  | cons m ms ih =>
    intro b b1 es h
    cases hmt : moveTextOf m with
    | none => rw [replayData_cons_skip E b m _ hmt] at h; exact absurd h (by simp)
    | some t =>
      cases hE : E b t with
      | none =>
        rw [replayData_cons_rej E b m _ t hmt hE] at h
        exact absurd h (by simp)
      | some e =>
        rw [replayData_cons_ok E b m _ t e hmt hE] at h
        rw [rebuildGo_cons_ok E b m _ t e hmt hE]
        cases hrec : replayData E (applyEffect b e) ms with
        | none => rw [hrec] at h; simp at h
        | some r =>
          obtain ⟨rb, res⟩ := r
          rw [hrec] at h
          simp only [Option.map_some', Option.some_inj, Prod.mk.injEq] at h
          obtain ⟨hb1, -⟩ := h
          subst hb1
          exact ih _ _ _ hrec

theorem rebuildGo_truncates (E : RulesEngine) (ys : List TimelineMove)
    (m : TimelineMove) (t : MoveText) :
    ∀ (xs : List TimelineMove) (b b1 : LBoard) (es : List MoveEffect),
      replayData E b xs = some (b1, es) → moveTextOf m = some t →
      E b1 t = none →
      rebuildGo E b (xs ++ m :: ys) = (b1, [Cmd.logInvalid t]) := by
  intro xs
  induction xs with
  | nil =>
    intro b b1 es h hmt hE
    rw [replayData_nil] at h
    simp only [Option.some_inj, Prod.mk.injEq] at h
    obtain ⟨hb, -⟩ := h
    subst hb
    rw [List.nil_append]
    exact rebuildGo_cons_rej E b m ys t hmt hE
  | cons m0 ms ih =>
    intro b b1 es h hmt hE
    rw [List.cons_append]
    cases hmt0 : moveTextOf m0 with
    | none =>
      rw [replayData_cons_skip E b m0 _ hmt0] at h
      exact absurd h (by simp)
    | some t0 =>
      cases hE0 : E b t0 with
      | none =>
        rw [replayData_cons_rej E b m0 _ t0 hmt0 hE0] at h
        exact absurd h (by simp)
      | some e0 =>
        rw [replayData_cons_ok E b m0 _ t0 e0 hmt0 hE0] at h
        rw [rebuildGo_cons_ok E b m0 _ t0 e0 hmt0 hE0]
        cases hrec : replayData E (applyEffect b e0) ms with
        | none => rw [hrec] at h; simp at h
        | some r =>
          obtain ⟨rb, res⟩ := r
          rw [hrec] at h
          simp only [Option.map_some', Option.some_inj, Prod.mk.injEq] at h
          obtain ⟨hb1, -⟩ := h
          subst hb1
          exact ih _ _ _ hrec hmt hE

/-! ### Reconcile branch lemmas -/

theorem reconcile_of_same (E : RulesEngine) (tl : Timeline) (st0 : SyncState)
    (i : Int) (h : i = st0.lastMoveIndex) :
    reconcile E tl st0 i = (cancelCrown st0, []) := by
  simp only [reconcile]
  rw [if_pos (show i = (cancelCrown st0).lastMoveIndex from h)]

theorem reconcile_of_step (E : RulesEngine) (tl : Timeline) (st0 : SyncState)
    (i : Int) (m : TimelineMove) (t : MoveText) (b : LBoard)
    (hne : ¬ i = st0.lastMoveIndex)
    (hfwd : i > st0.lastMoveIndex ∧ i - st0.lastMoveIndex = 1)
    (hm : jsGet tl.moves i = some m) (ht : moveTextOf m = some t)
    (hb : st0.currentChess = some b) :
    reconcile E tl st0 i
      = finishReconcile tl (applyMoveAnimated E b (cancelCrown st0) t) i := by
  simp only [reconcile]
  rw [if_neg (show ¬ i = (cancelCrown st0).lastMoveIndex from hne),
    if_pos (show i > (cancelCrown st0).lastMoveIndex
      ∧ i - (cancelCrown st0).lastMoveIndex = 1 from hfwd)]
  simp only [hm, ht, show (cancelCrown st0).currentChess = some b from hb]

theorem reconcile_of_step_noMove (E : RulesEngine) (tl : Timeline)
    (st0 : SyncState) (i : Int)
    (hne : ¬ i = st0.lastMoveIndex)
    (hfwd : i > st0.lastMoveIndex ∧ i - st0.lastMoveIndex = 1)
    (hm : jsGet tl.moves i = none) :
    reconcile E tl st0 i = finishReconcile tl (cancelCrown st0, []) i := by
  simp only [reconcile]
  rw [if_neg (show ¬ i = (cancelCrown st0).lastMoveIndex from hne),
    if_pos (show i > (cancelCrown st0).lastMoveIndex
      ∧ i - (cancelCrown st0).lastMoveIndex = 1 from hfwd)]
  simp only [hm]

theorem reconcile_of_step_noText (E : RulesEngine) (tl : Timeline)
    (st0 : SyncState) (i : Int) (m : TimelineMove)
    (hne : ¬ i = st0.lastMoveIndex)
    (hfwd : i > st0.lastMoveIndex ∧ i - st0.lastMoveIndex = 1)
    (hm : jsGet tl.moves i = some m) (ht : moveTextOf m = none) :
    reconcile E tl st0 i = finishReconcile tl (cancelCrown st0, []) i := by
  simp only [reconcile]
  rw [if_neg (show ¬ i = (cancelCrown st0).lastMoveIndex from hne),
    if_pos (show i > (cancelCrown st0).lastMoveIndex
      ∧ i - (cancelCrown st0).lastMoveIndex = 1 from hfwd)]
  simp only [hm, ht]

theorem reconcile_of_step_noChess (E : RulesEngine) (tl : Timeline)
    (st0 : SyncState) (i : Int) (m : TimelineMove) (t : MoveText)
    (hne : ¬ i = st0.lastMoveIndex)
    (hfwd : i > st0.lastMoveIndex ∧ i - st0.lastMoveIndex = 1)
    (hm : jsGet tl.moves i = some m) (ht : moveTextOf m = some t)
    (hb : st0.currentChess = none) :
    reconcile E tl st0 i = finishReconcile tl (cancelCrown st0, []) i := by
  simp only [reconcile]
  rw [if_neg (show ¬ i = (cancelCrown st0).lastMoveIndex from hne),
    if_pos (show i > (cancelCrown st0).lastMoveIndex
      ∧ i - (cancelCrown st0).lastMoveIndex = 1 from hfwd)]
  simp only [hm, ht, show (cancelCrown st0).currentChess = none from hb]

theorem reconcile_of_rebuild (E : RulesEngine) (tl : Timeline) (st0 : SyncState)
    (i : Int) (hne : ¬ i = st0.lastMoveIndex)
    (hnf : ¬(i > st0.lastMoveIndex ∧ i - st0.lastMoveIndex = 1)) :
    reconcile E tl st0 i
      = finishReconcile tl (rebuildPath E tl (cancelCrown st0) i) i := by
  simp only [reconcile]
  rw [if_neg (show ¬ i = (cancelCrown st0).lastMoveIndex from hne),
    if_neg (show ¬(i > (cancelCrown st0).lastMoveIndex
      ∧ i - (cancelCrown st0).lastMoveIndex = 1) from hnf)]

theorem finishReconcile_frame (tl : Timeline) (r : SyncState × List Cmd)
    (i : Int) :
    (finishReconcile tl r i).1.piecesBySquare = r.1.piecesBySquare
    ∧ (finishReconcile tl r i).1.capturedWhitePieces = r.1.capturedWhitePieces
    ∧ (finishReconcile tl r i).1.capturedBlackPieces = r.1.capturedBlackPieces
    ∧ (finishReconcile tl r i).1.currentChess = r.1.currentChess
    ∧ (finishReconcile tl r i).1.nextId = r.1.nextId
    ∧ (finishReconcile tl r i).1.lastMoveIndex = i
    ∧ (finishReconcile tl r i).1.crownLoaded = r.1.crownLoaded
    ∧ (finishReconcile tl r i).1.crownMeshes = r.1.crownMeshes := by
  unfold finishReconcile scheduleCrownIfFinal
  split_ifs <;> simp

theorem finishReconcile_crown_pos (tl : Timeline) (r : SyncState × List Cmd)
    (i : Int) (h1 : r.1.crownLoaded = true)
    (h2 : i = (tl.moves.length : Int) - 1) :
    (finishReconcile tl r i).1.crownTimeout
      = some ⟨r.1.timerSeq, crownDelayMs, tl.result⟩
    ∧ (finishReconcile tl r i).2
      = r.2 ++ [Cmd.scheduleCrown crownDelayMs tl.result] := by
  unfold finishReconcile scheduleCrownIfFinal
  rw [if_pos (⟨h1, h2⟩ : r.1.crownLoaded = true ∧ i = (tl.moves.length : Int) - 1)]
  exact ⟨rfl, rfl⟩

theorem finishReconcile_crown_neg (tl : Timeline) (r : SyncState × List Cmd)
    (i : Int)
    (h : ¬(r.1.crownLoaded = true ∧ i = (tl.moves.length : Int) - 1)) :
    (finishReconcile tl r i).1.crownTimeout = r.1.crownTimeout
    ∧ (finishReconcile tl r i).2 = r.2 := by
  unfold finishReconcile scheduleCrownIfFinal
  rw [if_neg h]
  simp

theorem applyMoveAnimated_frame (E : RulesEngine) (b : LBoard)
    (st : SyncState) (t : MoveText) :
    (applyMoveAnimated E b st t).1.lastMoveIndex = st.lastMoveIndex
    ∧ (applyMoveAnimated E b st t).1.crownLoaded = st.crownLoaded
    ∧ (applyMoveAnimated E b st t).1.crownTimeout = st.crownTimeout
    ∧ (applyMoveAnimated E b st t).1.crownMeshes = st.crownMeshes
    ∧ (applyMoveAnimated E b st t).1.timerSeq = st.timerSeq := by
  unfold applyMoveAnimated
  cases hE : E b t with
  | none => exact ⟨rfl, rfl, rfl, rfl, rfl⟩
  | some mv =>
    obtain ⟨a1, a2, a3, a4, a5, a6, a7, a8⟩ := applyCapturePart_fields st mv
    obtain ⟨b1, b2, b3, b4, b5, b6, b7, b8, b9⟩ :=
      applyMoverPart_fields (applyCapturePart st mv).1 mv
    obtain ⟨c1, c2, c3, c4, c5, c6, c7, c8, c9⟩ :=
      applyCastlePart_fields (applyMoverPart (applyCapturePart st mv).1 mv).1 mv
    obtain ⟨d1, d2, d3, d4, d5, d6, d7, d8⟩ :=
      applyPromotionPart_fields
        (applyCastlePart (applyMoverPart (applyCapturePart st mv).1 mv).1 mv).1 mv
    exact ⟨d4.trans (c4.trans (b4.trans a2)),
      d6.trans (c7.trans (b7.trans a4)),
      d5.trans (c6.trans (b6.trans a5)),
      d7.trans (c8.trans (b8.trans a7)),
      d8.trans (c9.trans (b9.trans a8))⟩

theorem setupBoardFromChess_frame (st : SyncState) (b : LBoard) :
    (setupBoardFromChess st b).lastMoveIndex = st.lastMoveIndex
    ∧ (setupBoardFromChess st b).crownLoaded = st.crownLoaded
    ∧ (setupBoardFromChess st b).crownTimeout = st.crownTimeout
    ∧ (setupBoardFromChess st b).crownMeshes = st.crownMeshes
    ∧ (setupBoardFromChess st b).timerSeq = st.timerSeq :=
  ⟨rfl, rfl, rfl, rfl, rfl⟩

/-! ### Captured-list bookkeeping lemmas -/

theorem slotsOk_nil : slotsOk [] := by
  intro j h
  simp at h

theorem slotsOk_append (l : List CapturedEntry) (h : slotsOk l)
    (ci : PieceInfo) :
    slotsOk (l ++ [⟨ci, l.length % 8, l.length / 8⟩]) := by
  intro j hj
  rw [List.length_append, List.length_singleton] at hj
  by_cases hlt : j < l.length
  · have hg : (l ++ [(⟨ci, l.length % 8, l.length / 8⟩ : CapturedEntry)]).get
        ⟨j, by rw [List.length_append, List.length_singleton]; omega⟩
        = l.get ⟨j, hlt⟩ := by
      rw [List.get_eq_getElem, List.get_eq_getElem]
      exact List.getElem_append_left hlt
    rw [hg]
    exact h j hlt
  · have hje : j = l.length := by omega
    subst hje
    have hg : (l ++ [(⟨ci, l.length % 8, l.length / 8⟩ : CapturedEntry)]).get
        ⟨l.length, by rw [List.length_append, List.length_singleton]; omega⟩
        = ⟨ci, l.length % 8, l.length / 8⟩ := by
      rw [List.get_eq_getElem]
      rw [List.getElem_append_right (le_refl l.length)]
      simp
    rw [hg]
    exact ⟨rfl, rfl⟩

theorem applyMoveAnimated_of_accepts (E : RulesEngine) (b : LBoard)
    (st : SyncState) (t : MoveText) (e : MoveEffect) (hE : E b t = some e) :
    applyMoveAnimated E b st t = applyEffectStep st e b := by
  simp only [applyMoveAnimated, hE]

theorem applyMoveAnimated_of_rejects (E : RulesEngine) (b : LBoard)
    (st : SyncState) (t : MoveText) (hE : E b t = none) :
    applyMoveAnimated E b st t = (st, []) := by
  simp only [applyMoveAnimated, hE]

theorem applyEffectStep_capturedBlack_frame (st : SyncState) (mv : MoveEffect)
    (b : LBoard) :
    (applyEffectStep st mv b).1.capturedBlackPieces
      = (applyCapturePart st mv).1.capturedBlackPieces := by
  have h2 := (applyMoverPart_fields (applyCapturePart st mv).1 mv).2.1
  have h3 := (applyCastlePart_fields
    (applyMoverPart (applyCapturePart st mv).1 mv).1 mv).2.1
  have h4 := (applyPromotionPart_fields
    (applyCastlePart (applyMoverPart (applyCapturePart st mv).1 mv).1 mv).1 mv).2.1
  exact h4.trans (h3.trans h2)

theorem applyEffectStep_capturedWhite_frame (st : SyncState) (mv : MoveEffect)
    (b : LBoard) :
    (applyEffectStep st mv b).1.capturedWhitePieces
      = (applyCapturePart st mv).1.capturedWhitePieces := by
  have h2 := (applyMoverPart_fields (applyCapturePart st mv).1 mv).1
  have h3 := (applyCastlePart_fields
    (applyMoverPart (applyCapturePart st mv).1 mv).1 mv).1
  have h4 := (applyPromotionPart_fields
    (applyCastlePart (applyMoverPart (applyCapturePart st mv).1 mv).1 mv).1 mv).1
  exact h4.trans (h3.trans h2)

theorem applyEffectStep_capturedBlack (st : SyncState) (b : LBoard)
    (mv : MoveEffect) (hleg : mv.legalOn b)
    (hproj : ∀ c, regProj st.piecesBySquare c = b c) :
    (capturesBlackPiece mv = true →
      ∃ ci, st.piecesBySquare (capSquare mv) = some ci ∧ ci.isBlack = true
        ∧ (applyEffectStep st mv b).1.capturedBlackPieces
          = st.capturedBlackPieces ++
            [⟨ci, st.capturedBlackPieces.length % 8,
               st.capturedBlackPieces.length / 8⟩])
    ∧ (capturesBlackPiece mv = false →
      (applyEffectStep st mv b).1.capturedBlackPieces
        = st.capturedBlackPieces) := by
  obtain ⟨h1, h2, hcap, hep, hcas⟩ := hleg
  constructor
  · intro hcb
    rw [capturesBlackPiece, Bool.and_eq_true] at hcb
    obtain ⟨hcs, hwb⟩ := hcb
    obtain ⟨hocc, hne⟩ := hcap hcs
    obtain ⟨ci, hci, hcit, hcib⟩ :=
      exists_instance_of_proj st b (capSquare mv) _ (hproj _) hocc
    have hcib2 : ci.isBlack = true := by rw [hcib]; exact hwb
    refine ⟨ci, hci, hcib2, ?_⟩
    rw [applyEffectStep_capturedBlack_frame,
      applyCapturePart_of_black st mv ci hcs hci hcib2]
  · intro hcb
    rw [applyEffectStep_capturedBlack_frame]
    by_cases hcs : mv.captured.isSome = true
    · simp only [capturesBlackPiece, hcs, Bool.true_and, Bool.not_eq_false']
        at hcb
      obtain ⟨hocc, hne⟩ := hcap hcs
      obtain ⟨ci, hci, hcit, hcib⟩ :=
        exists_instance_of_proj st b (capSquare mv) _ (hproj _) hocc
      have hcib2 : ci.isBlack = false := by rw [hcib, hcb]; rfl
      rw [applyCapturePart_of_white st mv ci hcs hci hcib2]
    · rw [applyCapturePart_of_not st mv (by
        cases hq : mv.captured.isSome
        · rfl
        · exact absurd hq hcs)]

theorem applyEffectStep_capturedWhite (st : SyncState) (b : LBoard)
    (mv : MoveEffect) (hleg : mv.legalOn b)
    (hproj : ∀ c, regProj st.piecesBySquare c = b c) :
    (capturesWhitePiece mv = true →
      ∃ ci, st.piecesBySquare (capSquare mv) = some ci ∧ ci.isBlack = false
        ∧ (applyEffectStep st mv b).1.capturedWhitePieces
          = st.capturedWhitePieces ++
            [⟨ci, st.capturedWhitePieces.length % 8,
               st.capturedWhitePieces.length / 8⟩])
    ∧ (capturesWhitePiece mv = false →
      (applyEffectStep st mv b).1.capturedWhitePieces
        = st.capturedWhitePieces) := by
  obtain ⟨h1, h2, hcap, hep, hcas⟩ := hleg
  constructor
  · intro hcb
    rw [capturesWhitePiece, Bool.and_eq_true] at hcb
    obtain ⟨hcs, hwb⟩ := hcb
    obtain ⟨hocc, hne⟩ := hcap hcs
    obtain ⟨ci, hci, hcit, hcib⟩ :=
      exists_instance_of_proj st b (capSquare mv) _ (hproj _) hocc
    have hcib2 : ci.isBlack = false := by rw [hcib, hwb]; rfl
    refine ⟨ci, hci, hcib2, ?_⟩
    rw [applyEffectStep_capturedWhite_frame,
      applyCapturePart_of_white st mv ci hcs hci hcib2]
  · intro hcb
    rw [applyEffectStep_capturedWhite_frame]
    by_cases hcs : mv.captured.isSome = true
    · simp only [capturesWhitePiece, hcs, Bool.true_and] at hcb
      obtain ⟨hocc, hne⟩ := hcap hcs
      obtain ⟨ci, hci, hcit, hcib⟩ :=
        exists_instance_of_proj st b (capSquare mv) _ (hproj _) hocc
      have hcib2 : ci.isBlack = true := by rw [hcib, hcb]; rfl
      rw [applyCapturePart_of_black st mv ci hcs hci hcib2]
    · rw [applyCapturePart_of_not st mv (by
        cases hq : mv.captured.isSome
        · rfl
        · exact absurd hq hcs)]

/-! ### One forward reconcile step preserves the synchronizer invariant -/

theorem reconcile_forward_invariant (E : RulesEngine) (tl : Timeline)
    (hs : EngineSound E) (st : SyncState) (i : Nat)
    (hlen : i < tl.moves.length)
    (b b2 : LBoard) (es es2 : List MoveEffect)
    (hprev : replayData E initialBoard (tl.moves.take i) = some (b, es))
    (hcur : replayData E initialBoard (tl.moves.take (i + 1)) = some (b2, es2))
    (hlast : st.lastMoveIndex = (i : Int) - 1)
    (hchess : st.currentChess = some b)
    (hproj : ∀ c, regProj st.piecesBySquare c = b c)
    (hlb : st.capturedBlackPieces.length = es.countP capturesBlackPiece)
    (hlw : st.capturedWhitePieces.length = es.countP capturesWhitePiece)
    (hsb : slotsOk st.capturedBlackPieces)
    (hsw : slotsOk st.capturedWhitePieces) :
    (reconcile E tl st i).1.currentChess = some b2
    ∧ (∀ c, regProj (reconcile E tl st i).1.piecesBySquare c = b2 c)
    ∧ (reconcile E tl st i).1.lastMoveIndex = (i : Int)
    ∧ (reconcile E tl st i).1.capturedBlackPieces.length
        = es2.countP capturesBlackPiece
    ∧ (reconcile E tl st i).1.capturedWhitePieces.length
        = es2.countP capturesWhitePiece
    ∧ slotsOk (reconcile E tl st i).1.capturedBlackPieces
    ∧ slotsOk (reconcile E tl st i).1.capturedWhitePieces := by
  have hmel : tl.moves[i]? = some (tl.moves.get ⟨i, hlen⟩) := by
    rw [List.getElem?_eq_getElem hlen, List.get_eq_getElem]
  have htake : tl.moves.take (i + 1)
      = tl.moves.take i ++ [tl.moves.get ⟨i, hlen⟩] := by
    rw [List.take_succ, hmel]
    rfl
  rw [htake] at hcur
  obtain ⟨t, e, hmt, hE, hb2, hes2⟩ :=
    replayData_snoc E (tl.moves.take i) (tl.moves.get ⟨i, hlen⟩)
      initialBoard b es hprev b2 es2 hcur
  have hm : jsGet tl.moves (i : Int) = some (tl.moves.get ⟨i, hlen⟩) := by
    rw [jsGet, if_neg (by omega)]
    rw [show ((i : Int)).toNat = i from rfl]
    exact hmel
  have hne : ¬ (i : Int) = st.lastMoveIndex := by rw [hlast]; omega
  have hfwd : (i : Int) > st.lastMoveIndex
      ∧ (i : Int) - st.lastMoveIndex = 1 := by
    rw [hlast]; constructor <;> omega
  rw [reconcile_of_step E tl st i (tl.moves.get ⟨i, hlen⟩) t b hne hfwd hm hmt
    hchess, applyMoveAnimated_of_accepts E b (cancelCrown st) t e hE]
  have hleg := hs b t e hE
  have hproj2 : ∀ c, regProj (cancelCrown st).piecesBySquare c = b c := hproj
  obtain ⟨f1, f2, f3, f4, f5, f6, f7, f8⟩ :=
    finishReconcile_frame tl (applyEffectStep (cancelCrown st) e b) (i : Int)
  obtain ⟨hposB, hnegB⟩ :=
    applyEffectStep_capturedBlack (cancelCrown st) b e hleg hproj2
  obtain ⟨hposW, hnegW⟩ :=
    applyEffectStep_capturedWhite (cancelCrown st) b e hleg hproj2
  have hlb2 : (cancelCrown st).capturedBlackPieces.length
      = es.countP capturesBlackPiece := hlb
  have hlw2 : (cancelCrown st).capturedWhitePieces.length
      = es.countP capturesWhitePiece := hlw
  have hsb2 : slotsOk (cancelCrown st).capturedBlackPieces := hsb
  have hsw2 : slotsOk (cancelCrown st).capturedWhitePieces := hsw
  refine ⟨?_, ?_, ?_, ?_, ?_, ?_, ?_⟩
  · rw [f4, applyEffectStep_currentChess, hb2]
  · intro c
    rw [f1, hb2]
    exact proj_applyEffectStep (cancelCrown st) b e hleg hproj2 c
  · exact f6
  · rw [f3, hes2, List.countP_append]
    by_cases hcb : capturesBlackPiece e = true
    · obtain ⟨ci, -, -, hlist⟩ := hposB hcb
      rw [hlist, List.length_append]
      simp [List.countP_cons, hcb, hlb2]
    · have hcb2 : capturesBlackPiece e = false := by
        cases hq : capturesBlackPiece e
        · rfl
        · exact absurd hq hcb
      rw [hnegB hcb2]
      simp [List.countP_cons, hcb2, hlb2]
  · rw [f2, hes2, List.countP_append]
    by_cases hcw : capturesWhitePiece e = true
    · obtain ⟨ci, -, -, hlist⟩ := hposW hcw
      rw [hlist, List.length_append]
      simp [List.countP_cons, hcw, hlw2]
    · have hcw2 : capturesWhitePiece e = false := by
        cases hq : capturesWhitePiece e
        · rfl
        · exact absurd hq hcw
      rw [hnegW hcw2]
      simp [List.countP_cons, hcw2, hlw2]
  · rw [f3]
    by_cases hcb : capturesBlackPiece e = true
    · obtain ⟨ci, -, -, hlist⟩ := hposB hcb
      rw [hlist]
      exact slotsOk_append (cancelCrown st).capturedBlackPieces hsb2 ci
    · have hcb2 : capturesBlackPiece e = false := by
        cases hq : capturesBlackPiece e
        · rfl
        · exact absurd hq hcb
      rw [hnegB hcb2]
      exact hsb2
  · rw [f2]
    by_cases hcw : capturesWhitePiece e = true
    · obtain ⟨ci, -, -, hlist⟩ := hposW hcw
      rw [hlist]
      exact slotsOk_append (cancelCrown st).capturedWhitePieces hsw2 ci
    · have hcw2 : capturesWhitePiece e = false := by
        cases hq : capturesWhitePiece e
        · rfl
        · exact absurd hq hcw
      rw [hnegW hcw2]
      exact hsw2

/-! ### The invariant along the chain of forward steps -/

theorem stepSeq_invariant (E : RulesEngine) (tl : Timeline)
    (hs : EngineSound E) (ha : AcceptsAll E tl) :
    ∀ i, i < tl.moves.length →
      ∃ b es, replayData E initialBoard (tl.moves.take (i + 1)) = some (b, es)
        ∧ (stepSeq E tl i).currentChess = some b
        ∧ (∀ c, regProj (stepSeq E tl i).piecesBySquare c = b c)
        ∧ (stepSeq E tl i).lastMoveIndex = (i : Int)
        ∧ (stepSeq E tl i).capturedBlackPieces.length
            = es.countP capturesBlackPiece
        ∧ (stepSeq E tl i).capturedWhitePieces.length
            = es.countP capturesWhitePiece
        ∧ slotsOk (stepSeq E tl i).capturedBlackPieces
        ∧ slotsOk (stepSeq E tl i).capturedWhitePieces := by
  intro i
  induction i with
  | zero =>
    intro hlen
    have h1 : (replayData E initialBoard (tl.moves.take 1)).isSome = true :=
      replayData_take_isSome E tl.moves initialBoard ha 1
    obtain ⟨⟨b, es⟩, hbe⟩ := Option.isSome_iff_exists.mp h1
    refine ⟨b, es, hbe, ?_⟩
    exact reconcile_forward_invariant E tl hs freshState 0 hlen initialBoard b
      [] es (by rw [List.take_zero, replayData_nil]) hbe (by decide) rfl
      (fun c => buildRegistry_proj initialBoard 0 c) rfl rfl slotsOk_nil
      slotsOk_nil
  | succ n ih =>
    intro hlen
    obtain ⟨b, es, hbe, hchess, hproj, hlast, hlb, hlw, hsb, hsw⟩ :=
      ih (by omega)
    have h2 : (replayData E initialBoard (tl.moves.take (n + 2))).isSome
        = true := replayData_take_isSome E tl.moves initialBoard ha (n + 2)
    obtain ⟨⟨b2, es2⟩, hbe2⟩ := Option.isSome_iff_exists.mp h2
    refine ⟨b2, es2, hbe2, ?_⟩
    exact reconcile_forward_invariant E tl hs (stepSeq E tl n) (n + 1) hlen
      b b2 es es2 hbe hbe2 (by rw [hlast]; push_cast; ring) hchess hproj
      hlb hlw hsb hsw

/-! ### Soundness of the witness engine -/

theorem toyEngine_sound : EngineSound toyEngine := by
  intro b t e hE
  unfold toyEngine at hE
  split at hE
  · exact absurd hE (by simp)
  · split_ifs at hE with hl
    cases hE
    exact hl

/-! ### Claim theorems -/

/-- C1: for every timeline the rules engine accepts and every index i in
the timeline, the logical board (coordinate-to-kind/side mapping of the
piece registry) reached by consecutive single-step reconcile calls from
index -1 forward to i equals the logical board of a single full rebuild
replaying moves 0 through i from the initial position. -/
theorem c1_incremental_equals_rebuild (E : RulesEngine) (tl : Timeline)
    (hs : EngineSound E) (ha : AcceptsAll E tl) (i : Nat)
    (hi : i < tl.moves.length) :
    ∀ c, regProj (stepSeq E tl i).piecesBySquare c
      = regProj (rebuildPath E tl freshState (i : Int)).1.piecesBySquare c := by
  obtain ⟨b, es, hbe, hchess, hproj, hrest⟩ := stepSeq_invariant E tl hs ha i hi
  intro c
  rw [hproj c]
  have htn : ((i : Int) + 1).toNat = i + 1 := by omega
  have hgo : rebuildGo E initialBoard (tl.moves.take (i + 1)) = (b, []) :=
    rebuildGo_of_replay E _ initialBoard b es hbe
  have h1 : (rebuildGo E initialBoard
      (tl.moves.take ((i : Int) + 1).toNat)).1 = b := by
    rw [htn, hgo]
  simp only [rebuildPath]
  rw [h1, setupBoardFromChess_proj]

/-- Witness for C1: the incremental path and the rebuild path agree at
index 1 on the concrete timeline e4, e5 under the witness engine. -/
theorem c1_witness :
    EngineSound toyEngine
    ∧ AcceptsAll toyEngine
        ⟨[⟨some ("e4")⟩, ⟨some ("e5")⟩], GameResult.unknown⟩
    ∧ (1 : Nat) <
        (Timeline.moves ⟨[⟨some ("e4")⟩, ⟨some ("e5")⟩], GameResult.unknown⟩).length
    ∧ (∀ c, regProj
        (stepSeq toyEngine
          ⟨[⟨some ("e4")⟩, ⟨some ("e5")⟩], GameResult.unknown⟩ 1).piecesBySquare c
      = regProj
        (rebuildPath toyEngine
          ⟨[⟨some ("e4")⟩, ⟨some ("e5")⟩], GameResult.unknown⟩ freshState
          ((1 : Nat) : Int)).1.piecesBySquare c) :=
  ⟨toyEngine_sound, by rfl, by decide,
   c1_incremental_equals_rebuild toyEngine
     ⟨[⟨some ("e4")⟩, ⟨some ("e5")⟩], GameResult.unknown⟩
     toyEngine_sound (by rfl) 1 (by decide)⟩

/-- C7: along a sequence of incremental steps, each side's captured
sequence has length equal to the number of that side's pieces captured
by the replayed effects, every entry rests in the deterministic
round-robin slot (row = index % 8, column = floor(index / 8)), and the
slots of distinct entries are distinct. -/
theorem c7_capture_bookkeeping (E : RulesEngine) (tl : Timeline)
    (hs : EngineSound E) (ha : AcceptsAll E tl) (i : Nat)
    (hi : i < tl.moves.length) (b : LBoard) (es : List MoveEffect)
    (hbe : replayData E initialBoard (tl.moves.take (i + 1)) = some (b, es)) :
    (stepSeq E tl i).capturedBlackPieces.length
        = es.countP capturesBlackPiece
    ∧ (stepSeq E tl i).capturedWhitePieces.length
        = es.countP capturesWhitePiece
    ∧ slotsOk (stepSeq E tl i).capturedBlackPieces
    ∧ slotsOk (stepSeq E tl i).capturedWhitePieces
    ∧ (∀ (l : List CapturedEntry), slotsOk l →
        ∀ j k (hj : j < l.length) (hk : k < l.length), j ≠ k →
          ((l.get ⟨j, hj⟩).row, (l.get ⟨j, hj⟩).col)
            ≠ ((l.get ⟨k, hk⟩).row, (l.get ⟨k, hk⟩).col)) := by
  obtain ⟨b2, es2, hbe2, hc1, hc2, hc3, hlb, hlw, hsb, hsw⟩ :=
    stepSeq_invariant E tl hs ha i hi
  rw [hbe] at hbe2
  have hes : es2 = es := by
    cases hbe2
    rfl
  subst hes
  refine ⟨hlb, hlw, hsb, hsw, ?_⟩
  intro l hsl j k hj hk hjk hq
  obtain ⟨hjr, hjc⟩ := hsl j hj
  obtain ⟨hkr, hkc⟩ := hsl k hk
  rw [hjr, hjc, hkr, hkc, Prod.mk.injEq] at hq
  obtain ⟨hr, hc⟩ := hq
  exact hjk (by omega)

/-- Witness for C7 on the timeline e4, d5, exd5 under the witness
engine: after the three steps the black captured sequence matches the
capture count of the replayed effects (one black pawn captured), the
white one is empty. -/
theorem c7_witness :
    EngineSound toyEngine
    ∧ AcceptsAll toyEngine
        ⟨[⟨some ("e4")⟩, ⟨some ("d5")⟩, ⟨some ("exd5")⟩], GameResult.unknown⟩
    ∧ (2 : Nat) <
        (Timeline.moves
          ⟨[⟨some ("e4")⟩, ⟨some ("d5")⟩, ⟨some ("exd5")⟩],
            GameResult.unknown⟩).length
    ∧ replayData toyEngine initialBoard
        ((Timeline.moves
          ⟨[⟨some ("e4")⟩, ⟨some ("d5")⟩, ⟨some ("exd5")⟩],
            GameResult.unknown⟩).take (2 + 1))
      = some
        (applyEffect
          (applyEffect (applyEffect initialBoard
            { fromSq := (4, 6), toSq := (4, 4), piece := .pawn,
              isBlack := false, captured := none, isEnPassant := false,
              castleKing := false, castleQueen := false, promotion := none })
            { fromSq := (3, 1), toSq := (3, 3), piece := .pawn,
              isBlack := true, captured := none, isEnPassant := false,
              castleKing := false, castleQueen := false, promotion := none })
          { fromSq := (4, 4), toSq := (3, 3), piece := .pawn,
            isBlack := false, captured := some .pawn, isEnPassant := false,
            castleKing := false, castleQueen := false, promotion := none },
         [{ fromSq := (4, 6), toSq := (4, 4), piece := .pawn,
              isBlack := false, captured := none, isEnPassant := false,
              castleKing := false, castleQueen := false, promotion := none },
          { fromSq := (3, 1), toSq := (3, 3), piece := .pawn,
              isBlack := true, captured := none, isEnPassant := false,
              castleKing := false, castleQueen := false, promotion := none },
          { fromSq := (4, 4), toSq := (3, 3), piece := .pawn,
              isBlack := false, captured := some .pawn, isEnPassant := false,
              castleKing := false, castleQueen := false, promotion := none }])
    ∧ ((stepSeq toyEngine
          ⟨[⟨some ("e4")⟩, ⟨some ("d5")⟩, ⟨some ("exd5")⟩],
            GameResult.unknown⟩ 2).capturedBlackPieces.length
        = List.countP capturesBlackPiece
            [{ fromSq := (4, 6), toSq := (4, 4), piece := .pawn,
                isBlack := false, captured := none, isEnPassant := false,
                castleKing := false, castleQueen := false, promotion := none },
             { fromSq := (3, 1), toSq := (3, 3), piece := .pawn,
                isBlack := true, captured := none, isEnPassant := false,
                castleKing := false, castleQueen := false, promotion := none },
             { fromSq := (4, 4), toSq := (3, 3), piece := .pawn,
                isBlack := false, captured := some .pawn, isEnPassant := false,
                castleKing := false, castleQueen := false, promotion := none }]
      ∧ List.countP capturesBlackPiece
            [({ fromSq := (4, 6), toSq := (4, 4), piece := .pawn,
                isBlack := false, captured := none, isEnPassant := false,
                castleKing := false, castleQueen := false,
                promotion := none } : MoveEffect),
             { fromSq := (3, 1), toSq := (3, 3), piece := .pawn,
                isBlack := true, captured := none, isEnPassant := false,
                castleKing := false, castleQueen := false, promotion := none },
             { fromSq := (4, 4), toSq := (3, 3), piece := .pawn,
                isBlack := false, captured := some .pawn, isEnPassant := false,
                castleKing := false, castleQueen := false, promotion := none }]
          = 1) := by
  refine ⟨toyEngine_sound, by rfl, by decide, by rfl, ?_, by decide⟩
  exact (c7_capture_bookkeeping toyEngine
    ⟨[⟨some ("e4")⟩, ⟨some ("d5")⟩, ⟨some ("exd5")⟩], GameResult.unknown⟩
    toyEngine_sound (by rfl) 2 (by decide) _ _ (by rfl)).1

theorem applyEffectStep_cmds (st : SyncState) (mv : MoveEffect) (b : LBoard) :
    (applyEffectStep st mv b).2
      = (applyCapturePart st mv).2
        ++ (applyMoverPart (applyCapturePart st mv).1 mv).2
        ++ (applyCastlePart
            (applyMoverPart (applyCapturePart st mv).1 mv).1 mv).2
        ++ (applyPromotionPart
            (applyCastlePart
              (applyMoverPart (applyCapturePart st mv).1 mv).1 mv).1 mv).2 :=
  rfl

/-- C4: an incremental step with a capture removes from the registry the
instance standing on the capture square of the PRE-state — for en
passant the square (destination file, origin rank), which differs from
the destination; otherwise the destination square — appends it to the
captured sequence of its side, and still relocates the mover onto the
destination afterwards (so the victim, not the mover, is the removed
instance). -/
theorem c4_en_passant_capture_square (st : SyncState) (b : LBoard)
    (mv : MoveEffect) (hleg : mv.legalOn b)
    (hproj : ∀ c, regProj st.piecesBySquare c = b c)
    (hcap : mv.captured.isSome = true) :
    ∃ ci pi, st.piecesBySquare (capSquare mv) = some ci
      ∧ st.piecesBySquare mv.fromSq = some pi
      ∧ pi ≠ ci
      ∧ (mv.isEnPassant = true →
          capSquare mv = (mv.toSq.1, mv.fromSq.2) ∧ capSquare mv ≠ mv.toSq)
      ∧ (mv.isEnPassant = false → capSquare mv = mv.toSq)
      ∧ (ci.isBlack = true →
          (applyEffectStep st mv b).1.capturedBlackPieces
            = st.capturedBlackPieces ++
              [⟨ci, st.capturedBlackPieces.length % 8,
                 st.capturedBlackPieces.length / 8⟩])
      ∧ (ci.isBlack = false →
          (applyEffectStep st mv b).1.capturedWhitePieces
            = st.capturedWhitePieces ++
              [⟨ci, st.capturedWhitePieces.length % 8,
                 st.capturedWhitePieces.length / 8⟩])
      ∧ (mv.promotion = none →
          (applyEffectStep st mv b).1.piecesBySquare mv.toSq = some pi) := by
  obtain ⟨h1, h2, hcapC, hep, hcas⟩ := hleg
  obtain ⟨hocc, hne⟩ := hcapC hcap
  obtain ⟨ci, hci, hcit, hcib⟩ :=
    exists_instance_of_proj st b (capSquare mv) _ (hproj _) hocc
  obtain ⟨pi, hpi, hpit, hpib⟩ :=
    exists_instance_of_proj st b mv.fromSq _ (hproj _) h1
  have hnc : ¬(mv.castleKing = true ∨ mv.castleQueen = true) := by
    intro hq
    have := (hcas hq).2.1
    rw [this] at hcap
    simp at hcap
  have hfrom1 : (applyCapturePart st mv).1.piecesBySquare mv.fromSq
      = some pi := by
    rw [applyCapturePart_reg]
    split_ifs with h
    · exact absurd h.2.symm hne
    · exact hpi
  refine ⟨ci, pi, hci, hpi, ?_, ?_, ?_, ?_, ?_, ?_⟩
  · intro hq
    subst hq
    have hb1 : pi.isBlack = mv.isBlack := hpib
    have hb2 : pi.isBlack = !mv.isBlack := hcib
    rw [hb1] at hb2
    cases mv.isBlack <;> simp at hb2
  · intro hq
    constructor
    · rw [capSquare, if_pos hq]
    · rw [capSquare, if_pos hq]
      intro heq
      have := congrArg Prod.snd heq
      exact absurd this.symm ((hep hq).2.1).symm
  · intro hq
    rw [capSquare, hq]
    rfl
  · intro hcb2
    have hcbp : capturesBlackPiece mv = true := by
      rw [capturesBlackPiece, Bool.and_eq_true]
      exact ⟨hcap, hcib.symm.trans hcb2⟩
    obtain ⟨ci2, hci2, -, hlist⟩ :=
      (applyEffectStep_capturedBlack st b mv
        ⟨h1, h2, hcapC, hep, hcas⟩ hproj).1 hcbp
    rw [hci] at hci2
    cases hci2
    exact hlist
  · intro hcb2
    have hcwp : capturesWhitePiece mv = true := by
      rw [capturesWhitePiece, Bool.and_eq_true]
      refine ⟨hcap, ?_⟩
      have hx : (!mv.isBlack) = false := hcib.symm.trans hcb2
      simp at hx
      exact hx
    obtain ⟨ci2, hci2, -, hlist⟩ :=
      (applyEffectStep_capturedWhite st b mv
        ⟨h1, h2, hcapC, hep, hcas⟩ hproj).1 hcwp
    rw [hci] at hci2
    cases hci2
    exact hlist
  · intro hprom
    rw [applyEffectStep_reg,
      applyPromotionPart_of_none _ mv hprom,
      applyCastlePart_of_not _ mv hnc,
      applyMoverPart_of_some _ mv pi hfrom1]
    simp [storeSet]

/-- Witness for C4: a concrete en passant capture (white pawn e5xd6 e.p.
with the black pawn on d5): the hypotheses hold by computation and the
theorem applies. -/
theorem c4_witness :
    (({ fromSq := (4, 3), toSq := (3, 2), piece := .pawn, isBlack := false,
        captured := some .pawn, isEnPassant := true, castleKing := false,
        castleQueen := false, promotion := none } : MoveEffect).legalOn
      (fun c => if c = ((4 : Fin 8), (3 : Fin 8)) then some ⟨.pawn, false⟩
        else if c = ((3 : Fin 8), (3 : Fin 8)) then some ⟨.pawn, true⟩
        else none))
    ∧ (∀ c, regProj
        (SyncState.piecesBySquare
          { piecesBySquare := fun c =>
              if c = ((4 : Fin 8), (3 : Fin 8)) then some ⟨0, .pawn, false⟩
              else if c = ((3 : Fin 8), (3 : Fin 8)) then some ⟨1, .pawn, true⟩
              else none,
            capturedWhitePieces := [], capturedBlackPieces := [],
            lastMoveIndex := 3, currentChess := none, nextId := 2,
            crownLoaded := false, crownTimeout := none, crownMeshes := [],
            timerSeq := 0 }) c
      = (fun c => if c = ((4 : Fin 8), (3 : Fin 8)) then some ⟨.pawn, false⟩
          else if c = ((3 : Fin 8), (3 : Fin 8)) then some ⟨.pawn, true⟩
          else none) c)
    ∧ (∃ ci pi,
        SyncState.piecesBySquare
          { piecesBySquare := fun c =>
              if c = ((4 : Fin 8), (3 : Fin 8)) then some ⟨0, .pawn, false⟩
              else if c = ((3 : Fin 8), (3 : Fin 8)) then some ⟨1, .pawn, true⟩
              else none,
            capturedWhitePieces := [], capturedBlackPieces := [],
            lastMoveIndex := 3, currentChess := none, nextId := 2,
            crownLoaded := false, crownTimeout := none, crownMeshes := [],
            timerSeq := 0 }
          (capSquare
            { fromSq := (4, 3), toSq := (3, 2), piece := .pawn,
              isBlack := false, captured := some .pawn, isEnPassant := true,
              castleKing := false, castleQueen := false, promotion := none })
          = some ci
        ∧ SyncState.piecesBySquare
          { piecesBySquare := fun c =>
              if c = ((4 : Fin 8), (3 : Fin 8)) then some ⟨0, .pawn, false⟩
              else if c = ((3 : Fin 8), (3 : Fin 8)) then some ⟨1, .pawn, true⟩
              else none,
            capturedWhitePieces := [], capturedBlackPieces := [],
            lastMoveIndex := 3, currentChess := none, nextId := 2,
            crownLoaded := false, crownTimeout := none, crownMeshes := [],
            timerSeq := 0 }
          (MoveEffect.fromSq
            { fromSq := (4, 3), toSq := (3, 2), piece := .pawn,
              isBlack := false, captured := some .pawn, isEnPassant := true,
              castleKing := false, castleQueen := false, promotion := none })
          = some pi
        ∧ pi ≠ ci
        ∧ ((true : Bool) = true →
            capSquare
              { fromSq := (4, 3), toSq := (3, 2), piece := .pawn,
                isBlack := false, captured := some .pawn, isEnPassant := true,
                castleKing := false, castleQueen := false, promotion := none }
              = (((3 : Fin 8), (3 : Fin 8)) : Coord)
            ∧ capSquare
              { fromSq := (4, 3), toSq := (3, 2), piece := .pawn,
                isBlack := false, captured := some .pawn, isEnPassant := true,
                castleKing := false, castleQueen := false, promotion := none }
              ≠ (((3 : Fin 8), (2 : Fin 8)) : Coord))) := by
  refine ⟨by decide, by decide, ?_⟩
  obtain ⟨ci, pi, hci, hpi, hne, hepC, hrest⟩ :=
    c4_en_passant_capture_square
      { piecesBySquare := fun c =>
          if c = ((4 : Fin 8), (3 : Fin 8)) then some ⟨0, .pawn, false⟩
          else if c = ((3 : Fin 8), (3 : Fin 8)) then some ⟨1, .pawn, true⟩
          else none,
        capturedWhitePieces := [], capturedBlackPieces := [],
        lastMoveIndex := 3, currentChess := none, nextId := 2,
        crownLoaded := false, crownTimeout := none, crownMeshes := [],
        timerSeq := 0 }
      (fun c => if c = ((4 : Fin 8), (3 : Fin 8)) then some ⟨.pawn, false⟩
        else if c = ((3 : Fin 8), (3 : Fin 8)) then some ⟨.pawn, true⟩
        else none)
      { fromSq := (4, 3), toSq := (3, 2), piece := .pawn, isBlack := false,
        captured := some .pawn, isEnPassant := true, castleKing := false,
        castleQueen := false, promotion := none }
      (by decide) (by decide) (by decide)
  refine ⟨ci, pi, hci, hpi, hne, ?_⟩
  intro htriv
  obtain ⟨hsq, hne2⟩ := hepC rfl
  exact ⟨hsq, hne2⟩

/-- C5: an incremental step whose effect carries a castle flag relocates,
in the same reconciliation cycle, both the king (origin to destination)
and the rook — from file 7 to file 5 for kingside, from file 0 to file 3
for queenside, on the castling side's home rank — so afterwards the
registry holds both instances at their post-castle squares, and both
relocations emit flat animated transitions. -/
theorem c5_castle_rook_relocation (st : SyncState) (b : LBoard)
    (mv : MoveEffect) (hleg : mv.legalOn b)
    (hproj : ∀ c, regProj st.piecesBySquare c = b c)
    (hcs : mv.castleKing = true ∨ mv.castleQueen = true) :
    ∃ kp rp, st.piecesBySquare mv.fromSq = some kp
      ∧ st.piecesBySquare (rookFromSq mv) = some rp
      ∧ kp.type = PieceType.king
      ∧ rp.type = PieceType.rook
      ∧ rookFromSq mv
          = ((if mv.castleKing then (7 : Fin 8) else 0), homeRow mv.isBlack)
      ∧ rookToSq mv
          = ((if mv.castleKing then (5 : Fin 8) else 3), homeRow mv.isBlack)
      ∧ (applyEffectStep st mv b).1.piecesBySquare mv.toSq = some kp
      ∧ (applyEffectStep st mv b).1.piecesBySquare (rookToSq mv) = some rp
      ∧ (applyEffectStep st mv b).1.piecesBySquare (rookFromSq mv) = none
      ∧ (applyEffectStep st mv b).1.piecesBySquare mv.fromSq = none
      ∧ Cmd.animMove kp.id mv.fromSq mv.toSq false animationDurationMs
          ∈ (applyEffectStep st mv b).2
      ∧ Cmd.animMove rp.id (rookFromSq mv) (rookToSq mv) false
          animationDurationMs ∈ (applyEffectStep st mv b).2 := by
  obtain ⟨h1, h2, hcapC, hep, hcas⟩ := hleg
  obtain ⟨hking, hcapn, hpromn, hepn, hnotboth, hfromEq, htoEq, hrook⟩ :=
    hcas hcs
  obtain ⟨pi, hpi, hpit, hpib⟩ :=
    exists_instance_of_proj st b mv.fromSq _ (hproj _) h1
  obtain ⟨ri, hriSt, hrit, hrib⟩ :=
    exists_instance_of_proj st b (rookFromSq mv) _ (hproj _) hrook
  have hnone : mv.captured.isSome = false := by rw [hcapn]; rfl
  have hs1 : ∀ c, (applyCapturePart st mv).1.piecesBySquare c
      = st.piecesBySquare c := by
    intro c
    rw [applyCapturePart_reg]
    simp [hnone]
  have hfrom1 : (applyCapturePart st mv).1.piecesBySquare mv.fromSq
      = some pi := by rw [hs1]; exact hpi
  have hne_rf_from : rookFromSq mv ≠ mv.fromSq := by
    rw [rookFromSq, hfromEq]
    intro hq
    rw [Prod.mk.injEq] at hq
    obtain ⟨hq1, -⟩ := hq
    cases hck : mv.castleKing <;> rw [hck] at hq1 <;>
      exact absurd hq1 (by decide)
  have hne_rf_to : rookFromSq mv ≠ mv.toSq := by
    rw [rookFromSq, htoEq]
    intro hq
    rw [Prod.mk.injEq] at hq
    obtain ⟨hq1, -⟩ := hq
    cases hck : mv.castleKing <;> rw [hck] at hq1 <;>
      exact absurd hq1 (by decide)
  have hne_to_rt : mv.toSq ≠ rookToSq mv := by
    rw [rookToSq, htoEq]
    intro hq
    rw [Prod.mk.injEq] at hq
    obtain ⟨hq1, -⟩ := hq
    cases hck : mv.castleKing <;> rw [hck] at hq1 <;>
      exact absurd hq1 (by decide)
  have hne_rt_rf : rookToSq mv ≠ rookFromSq mv := by
    rw [rookToSq, rookFromSq]
    intro hq
    rw [Prod.mk.injEq] at hq
    obtain ⟨hq1, -⟩ := hq
    cases hck : mv.castleKing <;> rw [hck] at hq1 <;>
      exact absurd hq1 (by decide)
  have hne_from_rt : mv.fromSq ≠ rookToSq mv := by
    rw [rookToSq, hfromEq]
    intro hq
    rw [Prod.mk.injEq] at hq
    obtain ⟨hq1, -⟩ := hq
    cases hck : mv.castleKing <;> rw [hck] at hq1 <;>
      exact absurd hq1 (by decide)
  have hri2 : (applyMoverPart (applyCapturePart st mv).1 mv).1.piecesBySquare
      (rookFromSq mv) = some ri := by
    rw [applyMoverPart_of_some _ mv pi hfrom1]
    show storeSet (storeDel (applyCapturePart st mv).1.piecesBySquare mv.fromSq)
      mv.toSq pi (rookFromSq mv) = some ri
    rw [storeSet_apply, if_neg hne_rf_to, storeDel_apply, if_neg hne_rf_from,
      hs1]
    exact hriSt
  have hmov := applyMoverPart_of_some (applyCapturePart st mv).1 mv pi hfrom1
  have hcast := applyCastlePart_of_some
    (applyMoverPart (applyCapturePart st mv).1 mv).1 mv ri hcs hri2
  have hprom := applyPromotionPart_of_none
    (applyCastlePart (applyMoverPart (applyCapturePart st mv).1 mv).1 mv).1
    mv hpromn
  have hregc : ∀ c, (applyEffectStep st mv b).1.piecesBySquare c
      = storeSet (storeDel (storeSet (storeDel st.piecesBySquare mv.fromSq)
          mv.toSq pi) (rookFromSq mv)) (rookToSq mv) ri c := by
    intro c
    rw [applyEffectStep_reg, hprom, hcast, hmov]
    simp only [storeSet_apply, storeDel_apply, hs1]
  have hcmds : (applyEffectStep st mv b).2
      = (applyCapturePart st mv).2
        ++ [Cmd.animMove pi.id mv.fromSq mv.toSq
              (mv.piece == PieceType.knight) animationDurationMs]
        ++ [Cmd.animMove ri.id (rookFromSq mv) (rookToSq mv) false
              animationDurationMs]
        ++ [] := by
    rw [applyEffectStep_cmds, hprom, hcast, hmov]
  refine ⟨pi, ri, hpi, hriSt, hpit.trans hking, hrit, rfl, rfl, ?_, ?_, ?_,
    ?_, ?_, ?_⟩
  · rw [hregc, storeSet_apply, if_neg hne_to_rt, storeDel_apply,
      if_neg (fun hq => hne_rf_to hq.symm), storeSet_apply, if_pos rfl]
  · rw [hregc, storeSet_apply, if_pos rfl]
  · rw [hregc, storeSet_apply, if_neg (fun hq => hne_rt_rf hq.symm),
      storeDel_apply, if_pos rfl]
  · rw [hregc, storeSet_apply, if_neg hne_from_rt, storeDel_apply,
      if_neg (fun hq => hne_rf_from hq.symm), storeSet_apply, if_neg h2,
      storeDel_apply, if_pos rfl]
  · rw [hcmds]
    have hkn : (mv.piece == PieceType.knight) = false := by
      rw [hking]
      rfl
    rw [hkn]
    simp
  · rw [hcmds]
    simp

/-- Witness for C5: a concrete white kingside castle: the king instance
ends on file 6 and the rook instance on file 5 of the home rank. -/
theorem c5_witness :
    (({ fromSq := (4, 7), toSq := (6, 7), piece := .king, isBlack := false,
        captured := none, isEnPassant := false, castleKing := true,
        castleQueen := false, promotion := none } : MoveEffect).legalOn
      (fun c => if c = ((4 : Fin 8), (7 : Fin 8)) then some ⟨.king, false⟩
        else if c = ((7 : Fin 8), (7 : Fin 8)) then some ⟨.rook, false⟩
        else none))
    ∧ (∀ c, regProj
        (SyncState.piecesBySquare
          { piecesBySquare := fun c =>
              if c = ((4 : Fin 8), (7 : Fin 8)) then some ⟨0, .king, false⟩
              else if c = ((7 : Fin 8), (7 : Fin 8)) then some ⟨1, .rook, false⟩
              else none,
            capturedWhitePieces := [], capturedBlackPieces := [],
            lastMoveIndex := 0, currentChess := none, nextId := 2,
            crownLoaded := false, crownTimeout := none, crownMeshes := [],
            timerSeq := 0 }) c
      = (fun c => if c = ((4 : Fin 8), (7 : Fin 8)) then some ⟨.king, false⟩
          else if c = ((7 : Fin 8), (7 : Fin 8)) then some ⟨.rook, false⟩
          else none) c)
    ∧ (∃ kp rp,
        (applyEffectStep
          { piecesBySquare := fun c =>
              if c = ((4 : Fin 8), (7 : Fin 8)) then some ⟨0, .king, false⟩
              else if c = ((7 : Fin 8), (7 : Fin 8)) then some ⟨1, .rook, false⟩
              else none,
            capturedWhitePieces := [], capturedBlackPieces := [],
            lastMoveIndex := 0, currentChess := none, nextId := 2,
            crownLoaded := false, crownTimeout := none, crownMeshes := [],
            timerSeq := 0 }
          { fromSq := (4, 7), toSq := (6, 7), piece := .king,
            isBlack := false, captured := none, isEnPassant := false,
            castleKing := true, castleQueen := false, promotion := none }
          (fun c => if c = ((4 : Fin 8), (7 : Fin 8)) then some ⟨.king, false⟩
            else if c = ((7 : Fin 8), (7 : Fin 8)) then some ⟨.rook, false⟩
            else none)).1.piecesBySquare (((6 : Fin 8), (7 : Fin 8)) : Coord)
          = some kp
        ∧ kp.type = PieceType.king
        ∧ (applyEffectStep
          { piecesBySquare := fun c =>
              if c = ((4 : Fin 8), (7 : Fin 8)) then some ⟨0, .king, false⟩
              else if c = ((7 : Fin 8), (7 : Fin 8)) then some ⟨1, .rook, false⟩
              else none,
            capturedWhitePieces := [], capturedBlackPieces := [],
            lastMoveIndex := 0, currentChess := none, nextId := 2,
            crownLoaded := false, crownTimeout := none, crownMeshes := [],
            timerSeq := 0 }
          { fromSq := (4, 7), toSq := (6, 7), piece := .king,
            isBlack := false, captured := none, isEnPassant := false,
            castleKing := true, castleQueen := false, promotion := none }
          (fun c => if c = ((4 : Fin 8), (7 : Fin 8)) then some ⟨.king, false⟩
            else if c = ((7 : Fin 8), (7 : Fin 8)) then some ⟨.rook, false⟩
            else none)).1.piecesBySquare (((5 : Fin 8), (7 : Fin 8)) : Coord)
          = some rp
        ∧ rp.type = PieceType.rook) := by
  refine ⟨by decide, by decide, ?_⟩
  obtain ⟨kp, rp, hkp, hrp, hkt, hrt, hrfEq, hrtEq, hto, hrto, hrf, hfr,
    hcmd1, hcmd2⟩ :=
    c5_castle_rook_relocation
      { piecesBySquare := fun c =>
          if c = ((4 : Fin 8), (7 : Fin 8)) then some ⟨0, .king, false⟩
          else if c = ((7 : Fin 8), (7 : Fin 8)) then some ⟨1, .rook, false⟩
          else none,
        capturedWhitePieces := [], capturedBlackPieces := [],
        lastMoveIndex := 0, currentChess := none, nextId := 2,
        crownLoaded := false, crownTimeout := none, crownMeshes := [],
        timerSeq := 0 }
      (fun c => if c = ((4 : Fin 8), (7 : Fin 8)) then some ⟨.king, false⟩
        else if c = ((7 : Fin 8), (7 : Fin 8)) then some ⟨.rook, false⟩
        else none)
      { fromSq := (4, 7), toSq := (6, 7), piece := .king, isBlack := false,
        captured := none, isEnPassant := false, castleKing := true,
        castleQueen := false, promotion := none }
      (by decide) (by decide) (Or.inl rfl)
  exact ⟨kp, rp, hto, hkt, hrto, hrt⟩

/-- C6: an incremental step whose effect carries a promotion destroys
the mover's original instance and creates a distinct fresh instance of
the promoted kind at the destination square; the registry swap command
is scheduled with a delay no shorter than the move's primary transition
duration, and after the swap the registry maps the destination to the
new instance of the promoted kind. -/
theorem c6_promotion_replacement (st : SyncState) (b : LBoard)
    (mv : MoveEffect) (pk : PieceType) (hleg : mv.legalOn b)
    (hproj : ∀ c, regProj st.piecesBySquare c = b c)
    (hpk : mv.promotion = some pk)
    (hids : ∀ c, ((st.piecesBySquare c).all
      (fun p => decide (p.id < st.nextId))) = true) :
    ∃ pi, st.piecesBySquare mv.fromSq = some pi
      ∧ (applyEffectStep st mv b).1.piecesBySquare mv.toSq
          = some ⟨st.nextId, pk, mv.isBlack⟩
      ∧ (∀ c p, st.piecesBySquare c = some p → p.id ≠ st.nextId)
      ∧ pi.id ≠ st.nextId
      ∧ (applyEffectStep st mv b).1.piecesBySquare mv.fromSq = none
      ∧ (applyEffectStep st mv b).1.nextId = st.nextId + 1
      ∧ (∃ delayMs durationMs,
          Cmd.promoSwap delayMs pi.id st.nextId mv.toSq pk
            ∈ (applyEffectStep st mv b).2
          ∧ Cmd.animMove pi.id mv.fromSq mv.toSq
              (mv.piece == PieceType.knight) durationMs
            ∈ (applyEffectStep st mv b).2
          ∧ durationMs ≤ delayMs) := by
  obtain ⟨h1, h2, hcapC, hep, hcas⟩ := hleg
  obtain ⟨pi, hpi, hpit, hpib⟩ :=
    exists_instance_of_proj st b mv.fromSq _ (hproj _) h1
  have hnc : ¬(mv.castleKing = true ∨ mv.castleQueen = true) := by
    intro hq
    have := (hcas hq).2.2.1
    rw [this] at hpk
    exact absurd hpk (by simp)
  have hfrom1 : (applyCapturePart st mv).1.piecesBySquare mv.fromSq
      = some pi := by
    rw [applyCapturePart_reg]
    split_ifs with h
    · exact absurd h.2.symm (hcapC h.1).2
    · exact hpi
  have hmov := applyMoverPart_of_some (applyCapturePart st mv).1 mv pi hfrom1
  have hcast := applyCastlePart_of_not
    (applyMoverPart (applyCapturePart st mv).1 mv).1 mv hnc
  have hto2 : (applyCastlePart
      (applyMoverPart (applyCapturePart st mv).1 mv).1 mv).1.piecesBySquare
      mv.toSq = some pi := by
    rw [hcast, hmov]
    show storeSet (storeDel (applyCapturePart st mv).1.piecesBySquare
      mv.fromSq) mv.toSq pi mv.toSq = some pi
    rw [storeSet_apply, if_pos rfl]
  have hnid : (applyCastlePart
      (applyMoverPart (applyCapturePart st mv).1 mv).1 mv).1.nextId
      = st.nextId := by
    have ha := (applyCapturePart_fields st mv).2.2.1
    have hb := (applyMoverPart_fields (applyCapturePart st mv).1 mv).2.2.2.2.1
    have hc := (applyCastlePart_fields
      (applyMoverPart (applyCapturePart st mv).1 mv).1 mv).2.2.2.2.1
    exact hc.trans (hb.trans ha)
  have hprom := applyPromotionPart_of_some
    (applyCastlePart (applyMoverPart (applyCapturePart st mv).1 mv).1 mv).1
    mv pk hpk
  refine ⟨pi, hpi, ?_, ?_, ?_, ?_, ?_, ?_⟩
  · rw [applyEffectStep_reg, hprom]
    show storeSet (storeDel (applyCastlePart
      (applyMoverPart (applyCapturePart st mv).1 mv).1 mv).1.piecesBySquare
      mv.toSq) mv.toSq
      ⟨(applyCastlePart
        (applyMoverPart (applyCapturePart st mv).1 mv).1 mv).1.nextId, pk,
        mv.isBlack⟩ mv.toSq = some _
    rw [storeSet_apply, if_pos rfl, hnid]
  · intro c p hcp
    have hx := hids c
    rw [hcp] at hx
    simp only [Option.all_some, decide_eq_true_eq] at hx
    exact Nat.ne_of_lt hx
  · have hx := hids mv.fromSq
    rw [hpi] at hx
    simp only [Option.all_some, decide_eq_true_eq] at hx
    exact Nat.ne_of_lt hx
  · rw [applyEffectStep_reg, hprom]
    show storeSet (storeDel (applyCastlePart
      (applyMoverPart (applyCapturePart st mv).1 mv).1 mv).1.piecesBySquare
      mv.toSq) mv.toSq
      ⟨(applyCastlePart
        (applyMoverPart (applyCapturePart st mv).1 mv).1 mv).1.nextId, pk,
        mv.isBlack⟩ mv.fromSq = none
    rw [storeSet_apply, if_neg h2, storeDel_apply, if_neg h2, hcast, hmov]
    show storeSet (storeDel (applyCapturePart st mv).1.piecesBySquare
      mv.fromSq) mv.toSq pi mv.fromSq = none
    rw [storeSet_apply, if_neg h2, storeDel_apply, if_pos rfl]
  · show (applyPromotionPart (applyCastlePart
      (applyMoverPart (applyCapturePart st mv).1 mv).1 mv).1 mv).1.nextId
      = st.nextId + 1
    rw [hprom]
    show (applyCastlePart
      (applyMoverPart (applyCapturePart st mv).1 mv).1 mv).1.nextId + 1
      = st.nextId + 1
    rw [hnid]
  · refine ⟨animationDurationMs, animationDurationMs, ?_, ?_, le_refl _⟩
    · rw [applyEffectStep_cmds, hprom]
      have holdid : ((((applyCastlePart
          (applyMoverPart (applyCapturePart st mv).1 mv).1 mv).1.piecesBySquare
          mv.toSq).map (fun p => p.id)).getD 0) = pi.id := by
        rw [hto2]
        rfl
      rw [holdid, hnid]
      simp
    · rw [applyEffectStep_cmds, hmov]
      simp

/-- Witness for C6: a concrete white promotion a8=Q: the original pawn
instance (id 0) is retired, a fresh queen instance (id 1) owns the
destination, and the swap command's delay covers the primary move
duration. -/
theorem c6_witness :
    (({ fromSq := (0, 1), toSq := (0, 0), piece := .pawn, isBlack := false,
        captured := none, isEnPassant := false, castleKing := false,
        castleQueen := false, promotion := some .queen } : MoveEffect).legalOn
      (fun c => if c = ((0 : Fin 8), (1 : Fin 8)) then some ⟨.pawn, false⟩
        else none))
    ∧ (∀ c, regProj
        (SyncState.piecesBySquare
          { piecesBySquare := fun c =>
              if c = ((0 : Fin 8), (1 : Fin 8)) then some ⟨0, .pawn, false⟩
              else none,
            capturedWhitePieces := [], capturedBlackPieces := [],
            lastMoveIndex := 5, currentChess := none, nextId := 1,
            crownLoaded := false, crownTimeout := none, crownMeshes := [],
            timerSeq := 0 }) c
      = (fun c => if c = ((0 : Fin 8), (1 : Fin 8)) then some ⟨.pawn, false⟩
          else none) c)
    ∧ (∃ pi,
        SyncState.piecesBySquare
          { piecesBySquare := fun c =>
              if c = ((0 : Fin 8), (1 : Fin 8)) then some ⟨0, .pawn, false⟩
              else none,
            capturedWhitePieces := [], capturedBlackPieces := [],
            lastMoveIndex := 5, currentChess := none, nextId := 1,
            crownLoaded := false, crownTimeout := none, crownMeshes := [],
            timerSeq := 0 } (((0 : Fin 8), (1 : Fin 8)) : Coord) = some pi
        ∧ (applyEffectStep
            { piecesBySquare := fun c =>
                if c = ((0 : Fin 8), (1 : Fin 8)) then some ⟨0, .pawn, false⟩
                else none,
              capturedWhitePieces := [], capturedBlackPieces := [],
              lastMoveIndex := 5, currentChess := none, nextId := 1,
              crownLoaded := false, crownTimeout := none, crownMeshes := [],
              timerSeq := 0 }
            { fromSq := (0, 1), toSq := (0, 0), piece := .pawn,
              isBlack := false, captured := none, isEnPassant := false,
              castleKing := false, castleQueen := false,
              promotion := some .queen }
            (fun c => if c = ((0 : Fin 8), (1 : Fin 8)) then some ⟨.pawn, false⟩
              else none)).1.piecesBySquare (((0 : Fin 8), (0 : Fin 8)) : Coord)
          = some ⟨1, .queen, false⟩
        ∧ pi.id ≠ 1
        ∧ (∃ delayMs durationMs,
            Cmd.promoSwap delayMs pi.id 1 (((0 : Fin 8), (0 : Fin 8)) : Coord)
              PieceType.queen
              ∈ (applyEffectStep
                { piecesBySquare := fun c =>
                    if c = ((0 : Fin 8), (1 : Fin 8)) then
                      some ⟨0, .pawn, false⟩
                    else none,
                  capturedWhitePieces := [], capturedBlackPieces := [],
                  lastMoveIndex := 5, currentChess := none, nextId := 1,
                  crownLoaded := false, crownTimeout := none,
                  crownMeshes := [], timerSeq := 0 }
                { fromSq := (0, 1), toSq := (0, 0), piece := .pawn,
                  isBlack := false, captured := none, isEnPassant := false,
                  castleKing := false, castleQueen := false,
                  promotion := some .queen }
                (fun c => if c = ((0 : Fin 8), (1 : Fin 8)) then
                    some ⟨.pawn, false⟩
                  else none)).2
            ∧ durationMs ≤ delayMs)) := by
  refine ⟨by decide, by decide, ?_⟩
  obtain ⟨pi, hpi, hto, hall, hne, hfrom, hnid, delayMs, durationMs, hsw,
    hmv, hled⟩ :=
    c6_promotion_replacement
      { piecesBySquare := fun c =>
          if c = ((0 : Fin 8), (1 : Fin 8)) then some ⟨0, .pawn, false⟩
          else none,
        capturedWhitePieces := [], capturedBlackPieces := [],
        lastMoveIndex := 5, currentChess := none, nextId := 1,
        crownLoaded := false, crownTimeout := none, crownMeshes := [],
        timerSeq := 0 }
      (fun c => if c = ((0 : Fin 8), (1 : Fin 8)) then some ⟨.pawn, false⟩
        else none)
      { fromSq := (0, 1), toSq := (0, 0), piece := .pawn, isBlack := false,
        captured := none, isEnPassant := false, castleKing := false,
        castleQueen := false, promotion := some .queen }
      PieceType.queen (by decide) (by decide) rfl (by decide)
  exact ⟨pi, hpi, hto, hne, delayMs, durationMs, hsw, hled⟩

/-- C2 counterexample: the claim says a repeated reconcile at the same
index has no observable state change; but crown cancellation (lines
520-526) runs before the no-change early return (line 545), so with a
pending decoration timer the repeated call observably clears it. -/
theorem c2_counterexample :
    (SyncState.crownTimeout
      { freshState with
          crownTimeout := some ⟨0, 2000, GameResult.whiteWins⟩,
          timerSeq := 1, lastMoveIndex := 3 })
      = some ⟨0, 2000, GameResult.whiteWins⟩
    ∧ (reconcile toyEngine ⟨[], GameResult.unknown⟩
        { freshState with
            crownTimeout := some ⟨0, 2000, GameResult.whiteWins⟩,
            timerSeq := 1, lastMoveIndex := 3 } 3).1.crownTimeout = none := by
  constructor
  · rfl
  · rfl

/-- C2 (amended): a reconcile call whose requested index equals the
cursor index returns right after the crown cancellation: no registry
mutation, no captured-list change, no cursor change, no commands; its
only effects are clearing the pending decoration timer and removing
placed decoration meshes. -/
theorem c2_no_change_amended (E : RulesEngine) (tl : Timeline)
    (st : SyncState) (i : Int) (h : i = st.lastMoveIndex) :
    reconcile E tl st i = (cancelCrown st, [])
    ∧ (cancelCrown st).piecesBySquare = st.piecesBySquare
    ∧ (cancelCrown st).capturedWhitePieces = st.capturedWhitePieces
    ∧ (cancelCrown st).capturedBlackPieces = st.capturedBlackPieces
    ∧ (cancelCrown st).lastMoveIndex = st.lastMoveIndex
    ∧ (cancelCrown st).currentChess = st.currentChess
    ∧ (cancelCrown st).nextId = st.nextId
    ∧ (cancelCrown st).crownTimeout = none
    ∧ (cancelCrown st).crownMeshes = [] :=
  ⟨reconcile_of_same E tl st i h, rfl, rfl, rfl, rfl, rfl, rfl, rfl, rfl⟩

/-- Witness for the amended C2 at the fresh post-load state and index
-1. -/
theorem c2_witness :
    ((-1 : Int) = freshState.lastMoveIndex)
    ∧ reconcile toyEngine ⟨[], GameResult.unknown⟩ freshState (-1)
        = (cancelCrown freshState, [])
    ∧ (cancelCrown freshState).piecesBySquare = freshState.piecesBySquare :=
  ⟨rfl,
   (c2_no_change_amended toyEngine ⟨[], GameResult.unknown⟩ freshState
     (-1) rfl).1,
   (c2_no_change_amended toyEngine ⟨[], GameResult.unknown⟩ freshState
     (-1) rfl).2.1⟩

theorem rebuildGo_cmds_no_anim (E : RulesEngine) :
    ∀ (ms : List TimelineMove) (b : LBoard),
      ∀ cmd ∈ (rebuildGo E b ms).2, cmd.isPieceAnim = false := by
  intro ms
  induction ms with
  | nil =>
    intro b cmd h
    rw [rebuildGo_nil] at h
    simp at h
  | cons m ms ih =>
    intro b cmd h
    cases hmt : moveTextOf m with
    | none =>
      rw [rebuildGo_cons_skip E b m ms hmt] at h
      exact ih b cmd h
    | some t =>
      cases hE : E b t with
      | none =>
        rw [rebuildGo_cons_rej E b m ms t hmt hE] at h
        simp at h
        rw [h]
        rfl
      | some e =>
        rw [rebuildGo_cons_ok E b m ms t e hmt hE] at h
        exact ih (applyEffect b e) cmd h

theorem finishReconcile_cmds (tl : Timeline) (r : SyncState × List Cmd)
    (i : Int) :
    (finishReconcile tl r i).2 = r.2 ++ (scheduleCrownIfFinal tl r.1 i).2 :=
  rfl

theorem scheduleCrownIfFinal_cmds_no_anim (tl : Timeline) (s : SyncState)
    (i : Int) :
    ∀ cmd ∈ (scheduleCrownIfFinal tl s i).2, cmd.isPieceAnim = false := by
  unfold scheduleCrownIfFinal
  split_ifs <;> intro cmd h <;> simp at h
  rw [h]
  rfl

/-- C3 counterexample: from the uninitialized startup cursor (-2,
`currentChess` null), reconcile(-1) is a single forward step, so the
claim's "in every other case a full rebuild" and "requestedIndex == -1
rebuilds to the initial position" demand the registry be reset to the
initial position (a pawn instance on e2); the code instead replays
nothing — the registry stays empty — and only advances the cursor. -/
theorem c3_counterexample :
    (reconcile toyEngine ⟨[⟨some ("e4")⟩], GameResult.unknown⟩ startupState
      (-1)).1.piecesBySquare (((4 : Fin 8), (6 : Fin 8)) : Coord) = none
    ∧ regProj
        (rebuildPath toyEngine ⟨[⟨some ("e4")⟩], GameResult.unknown⟩
          startupState (-1)).1.piecesBySquare
        (((4 : Fin 8), (6 : Fin 8)) : Coord)
      = some ⟨PieceType.pawn, false⟩
    ∧ (reconcile toyEngine ⟨[⟨some ("e4")⟩], GameResult.unknown⟩ startupState
        (-1)).1.lastMoveIndex = -1 := by
  exact ⟨by rfl, by decide, by rfl⟩

/-- C3 (amended): when the requested index differs from the cursor: (a)
in every non-forward-by-one case the synchronizer performs a full
rebuild — it replays moves 0 through requestedIndex from the initial
position, resets the registry to the resulting position with emptied
captured lists and emits no piece animation; (b) a single forward step
with a logical position and move text replays exactly that one move from
the cursor's position; (c) a single forward step WITHOUT a move text or
logical position replays nothing and only advances the cursor (this is
where the claim's "rebuild in every other case" and its reading of
requestedIndex == -1 fail); (d) requestedIndex == -1 from any cursor
other than the -2 startup sentinel rebuilds to the initial position with
zero moves replayed. -/
theorem c3_decision_rule_amended (E : RulesEngine) (tl : Timeline)
    (st : SyncState) (i : Int) (hne : i ≠ st.lastMoveIndex) :
    (i ≠ st.lastMoveIndex + 1 →
      (reconcile E tl st i).1.currentChess
        = some (rebuildGo E initialBoard (tl.moves.take (i + 1).toNat)).1
      ∧ (∀ c, regProj (reconcile E tl st i).1.piecesBySquare c
          = (rebuildGo E initialBoard (tl.moves.take (i + 1).toNat)).1 c)
      ∧ (reconcile E tl st i).1.capturedWhitePieces = []
      ∧ (reconcile E tl st i).1.capturedBlackPieces = []
      ∧ (∀ cmd ∈ (reconcile E tl st i).2, cmd.isPieceAnim = false)
      ∧ (reconcile E tl st i).1.lastMoveIndex = i)
    ∧ (∀ m t b e, i = st.lastMoveIndex + 1 → jsGet tl.moves i = some m →
        moveTextOf m = some t → st.currentChess = some b → E b t = some e →
        (reconcile E tl st i).1.currentChess = some (applyEffect b e)
        ∧ (e.legalOn b → (∀ c, regProj st.piecesBySquare c = b c) →
            ∀ c, regProj (reconcile E tl st i).1.piecesBySquare c
              = applyEffect b e c)
        ∧ (reconcile E tl st i).1.lastMoveIndex = i)
    ∧ (i = st.lastMoveIndex + 1 →
        (jsGet tl.moves i = none
          ∨ (∃ m, jsGet tl.moves i = some m ∧ moveTextOf m = none)
          ∨ st.currentChess = none) →
        (reconcile E tl st i).1.piecesBySquare = st.piecesBySquare
        ∧ (reconcile E tl st i).1.currentChess = st.currentChess
        ∧ (reconcile E tl st i).1.capturedWhitePieces
            = st.capturedWhitePieces
        ∧ (reconcile E tl st i).1.capturedBlackPieces
            = st.capturedBlackPieces
        ∧ (reconcile E tl st i).1.lastMoveIndex = i)
    ∧ (i = -1 → st.lastMoveIndex ≠ -2 →
        (reconcile E tl st i).1.currentChess = some initialBoard) := by
  have parta : i ≠ st.lastMoveIndex + 1 →
      (reconcile E tl st i).1.currentChess
        = some (rebuildGo E initialBoard (tl.moves.take (i + 1).toNat)).1
      ∧ (∀ c, regProj (reconcile E tl st i).1.piecesBySquare c
          = (rebuildGo E initialBoard (tl.moves.take (i + 1).toNat)).1 c)
      ∧ (reconcile E tl st i).1.capturedWhitePieces = []
      ∧ (reconcile E tl st i).1.capturedBlackPieces = []
      ∧ (∀ cmd ∈ (reconcile E tl st i).2, cmd.isPieceAnim = false)
      ∧ (reconcile E tl st i).1.lastMoveIndex = i := by
    intro hne1
    have hnf : ¬(i > st.lastMoveIndex ∧ i - st.lastMoveIndex = 1) := by
      intro hq
      exact hne1 (by omega)
    rw [reconcile_of_rebuild E tl st i hne hnf]
    obtain ⟨f1, f2, f3, f4, f5, f6, f7, f8⟩ :=
      finishReconcile_frame tl (rebuildPath E tl (cancelCrown st) i) i
    refine ⟨?_, ?_, ?_, ?_, ?_, f6⟩
    · rw [f4]
      rfl
    · intro c
      rw [f1]
      exact setupBoardFromChess_proj (cancelCrown st) _ c
    · rw [f2]
      rfl
    · rw [f3]
      rfl
    · intro cmd h
      rw [finishReconcile_cmds] at h
      rw [List.mem_append] at h
      cases h with
      | inl h => exact rebuildGo_cmds_no_anim E _ initialBoard cmd h
      | inr h => exact scheduleCrownIfFinal_cmds_no_anim tl _ i cmd h
  refine ⟨parta, ?_, ?_, ?_⟩
  · intro m t b e hstep hm hmt hb hE
    have hfwd : i > st.lastMoveIndex ∧ i - st.lastMoveIndex = 1 := by
      constructor <;> omega
    rw [reconcile_of_step E tl st i m t b hne hfwd hm hmt hb,
      applyMoveAnimated_of_accepts E b (cancelCrown st) t e hE]
    obtain ⟨f1, f2, f3, f4, f5, f6, f7, f8⟩ :=
      finishReconcile_frame tl (applyEffectStep (cancelCrown st) e b) i
    refine ⟨?_, ?_, f6⟩
    · rw [f4, applyEffectStep_currentChess]
    · intro hlegal hproj c
      rw [f1]
      exact proj_applyEffectStep (cancelCrown st) b e hlegal hproj c
  · intro hstep hmiss
    have hfwd : i > st.lastMoveIndex ∧ i - st.lastMoveIndex = 1 := by
      constructor <;> omega
    have hres : reconcile E tl st i
        = finishReconcile tl (cancelCrown st, []) i := by
      cases hmiss with
      | inl h => exact reconcile_of_step_noMove E tl st i hne hfwd h
      | inr h =>
        cases h with
        | inl h =>
          obtain ⟨m, hm, hmt⟩ := h
          exact reconcile_of_step_noText E tl st i m hne hfwd hm hmt
        | inr h =>
          cases hq : jsGet tl.moves i with
          | none => exact reconcile_of_step_noMove E tl st i hne hfwd hq
          | some m =>
            cases hmt : moveTextOf m with
            | none =>
              exact reconcile_of_step_noText E tl st i m hne hfwd hq hmt
            | some t =>
              exact reconcile_of_step_noChess E tl st i m t hne hfwd hq hmt h
    rw [hres]
    obtain ⟨f1, f2, f3, f4, f5, f6, f7, f8⟩ :=
      finishReconcile_frame tl (cancelCrown st, []) i
    exact ⟨f1, f4, f2, f3, f6⟩
  · intro hi hm2
    subst hi
    have h := parta (by omega)
    rw [h.1]
    rfl

/-- Witness for the amended C3: a two-index jump (reconcile(1) from the
fresh cursor -1) takes the rebuild branch. -/
theorem c3_witness :
    ((1 : Int) ≠ freshState.lastMoveIndex)
    ∧ ((1 : Int) ≠ freshState.lastMoveIndex + 1)
    ∧ (reconcile toyEngine
        ⟨[⟨some ("e4")⟩, ⟨some ("e5")⟩], GameResult.unknown⟩ freshState
        1).1.currentChess
      = some (rebuildGo toyEngine initialBoard
          ((Timeline.moves
            ⟨[⟨some ("e4")⟩, ⟨some ("e5")⟩], GameResult.unknown⟩).take
            ((1 : Int) + 1).toNat)).1
    ∧ (reconcile toyEngine
        ⟨[⟨some ("e4")⟩, ⟨some ("e5")⟩], GameResult.unknown⟩ freshState
        1).1.lastMoveIndex = 1 := by
  have h := (c3_decision_rule_amended toyEngine
    ⟨[⟨some ("e4")⟩, ⟨some ("e5")⟩], GameResult.unknown⟩ freshState 1
    (by decide)).1 (by decide)
  exact ⟨by decide, by decide, h.1, h.2.2.2.2.2⟩

/-- C8: when the rules engine rejects the move text at some position of
the replayed prefix during a rebuild, the replay stops at the last
successful move: the moves before the rejection are applied, those from
the rejection on are not, the fault is logged, and the registry is still
reset to the consistent board reached before the rejected move; the
rejection is not fatal (reconciliation completes and the cursor is
updated). -/
theorem c8_rebuild_truncation (E : RulesEngine) (tl : Timeline)
    (st : SyncState) (i : Int)
    (hne : i ≠ st.lastMoveIndex)
    (hnf : i ≠ st.lastMoveIndex + 1)
    (xs ys : List TimelineMove) (m : TimelineMove) (t : MoveText)
    (b1 : LBoard) (es : List MoveEffect)
    (hsplit : tl.moves.take (i + 1).toNat = xs ++ m :: ys)
    (hxs : replayData E initialBoard xs = some (b1, es))
    (hmt : moveTextOf m = some t) (hrej : E b1 t = none) :
    (reconcile E tl st i).1.currentChess = some b1
    ∧ (∀ c, regProj (reconcile E tl st i).1.piecesBySquare c = b1 c)
    ∧ Cmd.logInvalid t ∈ (reconcile E tl st i).2
    ∧ (reconcile E tl st i).1.lastMoveIndex = i := by
  have hnf2 : ¬(i > st.lastMoveIndex ∧ i - st.lastMoveIndex = 1) := by
    intro hq
    exact hnf (by omega)
  rw [reconcile_of_rebuild E tl st i hne hnf2]
  have hgo : rebuildGo E initialBoard (tl.moves.take (i + 1).toNat)
      = (b1, [Cmd.logInvalid t]) := by
    rw [hsplit]
    exact rebuildGo_truncates E ys m t xs initialBoard b1 es hxs hmt hrej
  obtain ⟨f1, f2, f3, f4, f5, f6, f7, f8⟩ :=
    finishReconcile_frame tl (rebuildPath E tl (cancelCrown st) i) i
  have hcc : (rebuildPath E tl (cancelCrown st) i).1.currentChess
      = some (rebuildGo E initialBoard (tl.moves.take (i + 1).toNat)).1 := rfl
  have hcmds : (rebuildPath E tl (cancelCrown st) i).2
      = [Cmd.logInvalid t] := by
    show (rebuildGo E initialBoard (tl.moves.take (i + 1).toNat)).2
      = [Cmd.logInvalid t]
    rw [hgo]
  refine ⟨?_, ?_, ?_, f6⟩
  · rw [f4, hcc, hgo]
  · intro c
    rw [f1]
    show regProj (setupBoardFromChess (cancelCrown st)
      (rebuildGo E initialBoard
        (tl.moves.take (i + 1).toNat)).1).piecesBySquare c = b1 c
    rw [hgo]
    exact setupBoardFromChess_proj (cancelCrown st) b1 c
  · rw [finishReconcile_cmds, hcmds]
    simp

/-- Witness for C8: the timeline e4, zz, e5 where the witness engine
rejects the text zz; reconcile(2) replays only e4 and logs the fault. -/
theorem c8_witness :
    ((2 : Int) ≠ freshState.lastMoveIndex)
    ∧ ((2 : Int) ≠ freshState.lastMoveIndex + 1)
    ∧ ((Timeline.moves
        ⟨[⟨some ("e4")⟩, ⟨some ("zz")⟩, ⟨some ("e5")⟩],
          GameResult.unknown⟩).take ((2 : Int) + 1).toNat
      = [(⟨some ("e4")⟩ : TimelineMove)]
        ++ (⟨some ("zz")⟩ : TimelineMove) :: [(⟨some ("e5")⟩ : TimelineMove)])
    ∧ replayData toyEngine initialBoard [(⟨some ("e4")⟩ : TimelineMove)]
      = some (applyEffect initialBoard e4Effect, [e4Effect])
    ∧ ((reconcile toyEngine
        ⟨[⟨some ("e4")⟩, ⟨some ("zz")⟩, ⟨some ("e5")⟩], GameResult.unknown⟩
        freshState 2).1.currentChess
      = some (applyEffect initialBoard e4Effect)
      ∧ Cmd.logInvalid ("zz")
        ∈ (reconcile toyEngine
            ⟨[⟨some ("e4")⟩, ⟨some ("zz")⟩, ⟨some ("e5")⟩],
              GameResult.unknown⟩ freshState 2).2
      ∧ (reconcile toyEngine
          ⟨[⟨some ("e4")⟩, ⟨some ("zz")⟩, ⟨some ("e5")⟩],
            GameResult.unknown⟩ freshState 2).1.lastMoveIndex = 2) := by
  have h := c8_rebuild_truncation toyEngine
    ⟨[⟨some ("e4")⟩, ⟨some ("zz")⟩, ⟨some ("e5")⟩], GameResult.unknown⟩
    freshState 2 (by decide) (by decide)
    [(⟨some ("e4")⟩ : TimelineMove)] [(⟨some ("e5")⟩ : TimelineMove)]
    (⟨some ("zz")⟩ : TimelineMove) ("zz")
    (applyEffect initialBoard e4Effect) [e4Effect]
    (by decide) (by rfl) (by rfl) (by rfl)
  exact ⟨by decide, by decide, by decide, by rfl, h.1, h.2.2.1, h.2.2.2⟩

theorem applyCapturePart_cmds_no_schedule (st : SyncState) (mv : MoveEffect) :
    ∀ cmd ∈ (applyCapturePart st mv).2, cmd.isCrownSchedule = false := by
  intro cmd h
  unfold applyCapturePart removePieceAnimated at h
  split at h
  · split at h
    · simp at h
    · split at h <;> (simp at h; rw [h]; rfl)
  · simp at h

theorem applyMoverPart_cmds_no_schedule (st : SyncState) (mv : MoveEffect) :
    ∀ cmd ∈ (applyMoverPart st mv).2, cmd.isCrownSchedule = false := by
  intro cmd h
  unfold applyMoverPart at h
  split at h
  · simp at h
  · simp at h
    rw [h]
    rfl

theorem applyCastlePart_cmds_no_schedule (st : SyncState) (mv : MoveEffect) :
    ∀ cmd ∈ (applyCastlePart st mv).2, cmd.isCrownSchedule = false := by
  intro cmd h
  unfold applyCastlePart at h
  split at h
  · split at h
    · simp at h
    · simp at h
      rw [h]
      rfl
  · simp at h

theorem applyPromotionPart_cmds_no_schedule (st : SyncState)
    (mv : MoveEffect) :
    ∀ cmd ∈ (applyPromotionPart st mv).2, cmd.isCrownSchedule = false := by
  intro cmd h
  unfold applyPromotionPart at h
  split at h
  · simp at h
  · simp at h
    rw [h]
    rfl

theorem applyMoveAnimated_cmds_no_schedule (E : RulesEngine) (b : LBoard)
    (st : SyncState) (t : MoveText) :
    ∀ cmd ∈ (applyMoveAnimated E b st t).2, cmd.isCrownSchedule = false := by
  intro cmd h
  unfold applyMoveAnimated at h
  split at h
  · simp at h
  · rw [applyEffectStep_cmds] at h
    simp only [List.mem_append] at h
    rcases h with ((h | h) | h) | h
    · exact applyCapturePart_cmds_no_schedule _ _ cmd h
    · exact applyMoverPart_cmds_no_schedule _ _ cmd h
    · exact applyCastlePart_cmds_no_schedule _ _ cmd h
    · exact applyPromotionPart_cmds_no_schedule _ _ cmd h

theorem rebuildGo_cmds_no_schedule (E : RulesEngine) :
    ∀ (ms : List TimelineMove) (b : LBoard),
      ∀ cmd ∈ (rebuildGo E b ms).2, cmd.isCrownSchedule = false := by
  intro ms
  induction ms with
  | nil =>
    intro b cmd h
    rw [rebuildGo_nil] at h
    simp at h
  | cons m ms ih =>
    intro b cmd h
    cases hmt : moveTextOf m with
    | none =>
      rw [rebuildGo_cons_skip E b m ms hmt] at h
      exact ih b cmd h
    | some t =>
      cases hE : E b t with
      | none =>
        rw [rebuildGo_cons_rej E b m ms t hmt hE] at h
        simp at h
        rw [h]
        rfl
      | some e =>
        rw [rebuildGo_cons_ok E b m ms t e hmt hE] at h
        exact ih (applyEffect b e) cmd h

theorem reconcile_branches (E : RulesEngine) (tl : Timeline) (st : SyncState)
    (i : Int) (hne : i ≠ st.lastMoveIndex) :
    ∃ r : SyncState × List Cmd, reconcile E tl st i = finishReconcile tl r i
      ∧ r.1.crownLoaded = st.crownLoaded
      ∧ r.1.timerSeq = st.timerSeq
      ∧ r.1.crownTimeout = none
      ∧ (∀ cmd ∈ r.2, cmd.isCrownSchedule = false) := by
  by_cases hf : i > st.lastMoveIndex ∧ i - st.lastMoveIndex = 1
  · cases hm : jsGet tl.moves i with
    | none =>
      exact ⟨(cancelCrown st, []),
        reconcile_of_step_noMove E tl st i hne hf hm, rfl, rfl, rfl,
        by intro cmd h; simp at h⟩
    | some m =>
      cases hmt : moveTextOf m with
      | none =>
        exact ⟨(cancelCrown st, []),
          reconcile_of_step_noText E tl st i m hne hf hm hmt, rfl, rfl, rfl,
          by intro cmd h; simp at h⟩
      | some t =>
        cases hb : st.currentChess with
        | none =>
          exact ⟨(cancelCrown st, []),
            reconcile_of_step_noChess E tl st i m t hne hf hm hmt hb,
            rfl, rfl, rfl, by intro cmd h; simp at h⟩
        | some b =>
          refine ⟨applyMoveAnimated E b (cancelCrown st) t,
            reconcile_of_step E tl st i m t b hne hf hm hmt hb, ?_, ?_, ?_,
            applyMoveAnimated_cmds_no_schedule E b (cancelCrown st) t⟩
          · exact (applyMoveAnimated_frame E b (cancelCrown st) t).2.1
          · exact (applyMoveAnimated_frame E b (cancelCrown st) t).2.2.2.2
          · exact (applyMoveAnimated_frame E b (cancelCrown st) t).2.2.1
  · refine ⟨rebuildPath E tl (cancelCrown st) i,
      reconcile_of_rebuild E tl st i hne hf, rfl, rfl, rfl, ?_⟩
    intro cmd h
    exact rebuildGo_cmds_no_schedule E _ initialBoard cmd h

/-- C9: a reconciliation that lands on the final move index (with the
crown model loaded) schedules exactly one decoration request with the
settle delay and the game's result tag; a reconciliation to any other
index leaves no pending decoration; every reconcile call cancels the
previously pending decoration timer (the resulting timer, if any, is a
fresh handle); and firing the decoration never changes the piece
registry, the captured lists or the logical position. -/
theorem c9_crown_schedule_cancel (E : RulesEngine) (tl : Timeline)
    (st : SyncState) (i : Int) :
    (i ≠ st.lastMoveIndex → st.crownLoaded = true →
      i = (tl.moves.length : Int) - 1 →
      (reconcile E tl st i).1.crownTimeout
        = some ⟨st.timerSeq, crownDelayMs, tl.result⟩
      ∧ (reconcile E tl st i).2.countP (fun c => c.isCrownSchedule) = 1)
    ∧ (i ≠ (tl.moves.length : Int) - 1 →
        (reconcile E tl st i).1.crownTimeout = none)
    ∧ (∀ c0, st.crownTimeout = some c0 → c0.token < st.timerSeq →
        (reconcile E tl st i).1.crownTimeout ≠ some c0)
    ∧ (fireCrown st).piecesBySquare = st.piecesBySquare
    ∧ (fireCrown st).capturedWhitePieces = st.capturedWhitePieces
    ∧ (fireCrown st).capturedBlackPieces = st.capturedBlackPieces
    ∧ (fireCrown st).currentChess = st.currentChess
    ∧ (st.crownTimeout = none → fireCrown st = st) := by
  refine ⟨?_, ?_, ?_, ?_, ?_, ?_, ?_, ?_⟩
  · intro hne hcl hfin
    obtain ⟨r, hrec, hload, hts, hct, hnos⟩ :=
      reconcile_branches E tl st i hne
    rw [hrec]
    obtain ⟨g1, g2⟩ := finishReconcile_crown_pos tl r i
      (hload.trans hcl) hfin
    constructor
    · rw [g1, hts]
    · rw [g2, List.countP_append]
      have hz : r.2.countP (fun c => c.isCrownSchedule) = 0 := by
        rw [List.countP_eq_zero]
        intro c hc
        rw [hnos c hc]
        simp
      rw [hz]
      rfl
  · intro hfin
    by_cases hne : i = st.lastMoveIndex
    · rw [reconcile_of_same E tl st i hne]
      rfl
    · obtain ⟨r, hrec, -, -, hct, -⟩ := reconcile_branches E tl st i hne
      rw [hrec]
      have := finishReconcile_crown_neg tl r i (fun hq => hfin hq.2)
      rw [this.1, hct]
  · intro c0 hc0 hlt
    by_cases hne : i = st.lastMoveIndex
    · rw [reconcile_of_same E tl st i hne]
      intro hq
      exact absurd hq (by simp [cancelCrown])
    · obtain ⟨r, hrec, hload, hts, hct, -⟩ := reconcile_branches E tl st i hne
      rw [hrec]
      by_cases hcrown : r.1.crownLoaded = true
          ∧ i = (tl.moves.length : Int) - 1
      · rw [(finishReconcile_crown_pos tl r i hcrown.1 hcrown.2).1]
        intro hq
        have h2 := Option.some.inj hq
        rw [← h2] at hlt
        have h4 : r.1.timerSeq < st.timerSeq := hlt
        rw [hts] at h4
        exact absurd h4 (lt_irrefl _)
      · rw [(finishReconcile_crown_neg tl r i hcrown).1, hct]
        simp
  · unfold fireCrown
    cases st.crownTimeout <;> rfl
  · unfold fireCrown
    cases st.crownTimeout <;> rfl
  · unfold fireCrown
    cases st.crownTimeout <;> rfl
  · unfold fireCrown
    cases st.crownTimeout <;> rfl
  · intro h
    unfold fireCrown
    rw [h]

/-- Witness for C9: reconciling from index 0 to the final index 1 of a
two-move game with a stale pending timer (token 0): a fresh decoration
request (token 1) is scheduled, exactly one schedule command is emitted,
and the stale timer is gone. -/
theorem c9_witness :
    ((1 : Int) ≠ (SyncState.lastMoveIndex
      { freshState with
        lastMoveIndex := 0,
        crownTimeout := some ⟨0, 2000, GameResult.draw⟩, timerSeq := 1 }))
    ∧ (SyncState.crownLoaded
        { freshState with
          lastMoveIndex := 0,
          crownTimeout := some ⟨0, 2000, GameResult.draw⟩, timerSeq := 1 })
        = true
    ∧ ((1 : Int) = ((Timeline.moves
        ⟨[⟨some ("e4")⟩, ⟨some ("e5")⟩], GameResult.whiteWins⟩).length : Int)
        - 1)
    ∧ (reconcile toyEngine
        ⟨[⟨some ("e4")⟩, ⟨some ("e5")⟩], GameResult.whiteWins⟩
        { freshState with
          lastMoveIndex := 0,
          crownTimeout := some ⟨0, 2000, GameResult.draw⟩, timerSeq := 1 }
        1).1.crownTimeout = some ⟨1, crownDelayMs, GameResult.whiteWins⟩
    ∧ (reconcile toyEngine
        ⟨[⟨some ("e4")⟩, ⟨some ("e5")⟩], GameResult.whiteWins⟩
        { freshState with
          lastMoveIndex := 0,
          crownTimeout := some ⟨0, 2000, GameResult.draw⟩, timerSeq := 1 }
        1).2.countP (fun c => c.isCrownSchedule) = 1
    ∧ (reconcile toyEngine
        ⟨[⟨some ("e4")⟩, ⟨some ("e5")⟩], GameResult.whiteWins⟩
        { freshState with
          lastMoveIndex := 0,
          crownTimeout := some ⟨0, 2000, GameResult.draw⟩, timerSeq := 1 }
        1).1.crownTimeout ≠ some ⟨0, 2000, GameResult.draw⟩ := by
  have h := c9_crown_schedule_cancel toyEngine
    ⟨[⟨some ("e4")⟩, ⟨some ("e5")⟩], GameResult.whiteWins⟩
    { freshState with
      lastMoveIndex := 0,
      crownTimeout := some ⟨0, 2000, GameResult.draw⟩, timerSeq := 1 } 1
  have h1 := h.1 (by decide) rfl (by decide)
  exact ⟨by decide, rfl, by decide, h1.1, h1.2,
    h.2.2.1 ⟨0, 2000, GameResult.draw⟩ rfl (by decide)⟩

/-- C10: for every rebuild reconciliation whose requested index is at
least the timeline length, the replay loop clamps at the end of the move
list (the source loop runs only while i <= requestedIndex and
i < moves.length; here `take (i+1).toNat` yields the whole list), so an
out-of-range requested index produces the final board position of the
game — in the logical position and in the registry projection — with no
out-of-bounds access, and the cursor still lands on the requested index. -/
theorem c10_out_of_range_clamps (E : RulesEngine) (tl : Timeline)
    (st : SyncState) (i : Int)
    (hne : i ≠ st.lastMoveIndex)
    (hnf : i ≠ st.lastMoveIndex + 1)
    (hlen : (tl.moves.length : Int) ≤ i) :
    (reconcile E tl st i).1.currentChess
      = some (rebuildGo E initialBoard tl.moves).1
    ∧ (∀ c, regProj (reconcile E tl st i).1.piecesBySquare c
        = (rebuildGo E initialBoard tl.moves).1 c)
    ∧ (reconcile E tl st i).1.lastMoveIndex = i := by
  have hnf2 : ¬(i > st.lastMoveIndex ∧ i - st.lastMoveIndex = 1) := by
    intro hq
    exact hnf (by omega)
  have htake : tl.moves.take (i + 1).toNat = tl.moves :=
    List.take_of_length_le (by omega)
  rw [reconcile_of_rebuild E tl st i hne hnf2]
  obtain ⟨f1, f2, f3, f4, f5, f6, f7, f8⟩ :=
    finishReconcile_frame tl (rebuildPath E tl (cancelCrown st) i) i
  refine ⟨?_, ?_, f6⟩
  · rw [f4]
    show (setupBoardFromChess (cancelCrown st)
      (rebuildGo E initialBoard (tl.moves.take (i + 1).toNat)).1).currentChess
      = some (rebuildGo E initialBoard tl.moves).1
    rw [htake]
    rfl
  · intro c
    rw [f1]
    show regProj (setupBoardFromChess (cancelCrown st)
      (rebuildGo E initialBoard
        (tl.moves.take (i + 1).toNat)).1).piecesBySquare c
      = (rebuildGo E initialBoard tl.moves).1 c
    rw [htake]
    exact setupBoardFromChess_proj (cancelCrown st) _ c

/-- Witness for C10: on the two-move timeline e4, e5, reconcile at the
out-of-range index 5 replays exactly the two moves and parks the cursor
at 5. -/
theorem c10_witness :
    ((5 : Int) ≠ freshState.lastMoveIndex)
    ∧ ((5 : Int) ≠ freshState.lastMoveIndex + 1)
    ∧ (((Timeline.moves
        ⟨[⟨some ("e4")⟩, ⟨some ("e5")⟩], GameResult.unknown⟩).length : Int)
      ≤ 5)
    ∧ (reconcile toyEngine
        ⟨[⟨some ("e4")⟩, ⟨some ("e5")⟩], GameResult.unknown⟩
        freshState 5).1.currentChess
      = some (rebuildGo toyEngine initialBoard
          [⟨some ("e4")⟩, ⟨some ("e5")⟩]).1
    ∧ (reconcile toyEngine
        ⟨[⟨some ("e4")⟩, ⟨some ("e5")⟩], GameResult.unknown⟩
        freshState 5).1.lastMoveIndex = 5 := by
  have h := c10_out_of_range_clamps toyEngine
    ⟨[⟨some ("e4")⟩, ⟨some ("e5")⟩], GameResult.unknown⟩
    freshState 5 (by decide) (by decide) (by decide)
  exact ⟨by decide, by decide, by decide, h.1, h.2.2⟩
